import Mathlib

/-!
Verification development for a CPU software-rendering pipeline
(vertex transform, primitive assembly, triangle rasterization,
procedural noise shading, pixel framebuffer).

Real-number arithmetic of the source (f32) is embedded as exact
arithmetic: rationals where the code is purely algebraic
(vertex transform, rasterizer, framebuffer, geometry normalization)
and reals where the code uses transcendental functions
(the noise engine and the procedural shaders).
-/

set_option maxHeartbeats 1000000

namespace Render

/-- 2-component vector, generic over the scalar type (raylib Vector2). -/
structure Vec2 (α : Type) where
  x : α
  y : α
deriving DecidableEq

/-- 3-component vector (raylib Vector3). -/
structure Vec3 (α : Type) where
  x : α
  y : α
  z : α
deriving DecidableEq

/-- 4-component homogeneous vector (raylib Vector4). -/
structure Vec4 (α : Type) where
  x : α
  y : α
  z : α
  w : α
deriving DecidableEq

/-- 4x4 matrix in raylib field layout: m0..m3 is the first column,
m4..m7 the second, m8..m11 the third, m12..m15 the fourth. -/
structure Mat4 (α : Type) where
  m0 : α
  m1 : α
  m2 : α
  m3 : α
  m4 : α
  m5 : α
  m6 : α
  m7 : α
  m8 : α
  m9 : α
  m10 : α
  m11 : α
  m12 : α
  m13 : α
  m14 : α
  m15 : α
deriving DecidableEq

/-- Modelled from the spec: the Vertex record of the missing vertex.rs —
object-space position, normal, 2D tex_coords, a base color, and the
derived transformed_position / transformed_normal fields. -/
structure Vertex (α : Type) where
  position : Vec3 α
  normal : Vec3 α
  tex_coords : Vec2 α
  color : Vec3 α
  transformed_position : Vec3 α
  transformed_normal : Vec3 α
deriving DecidableEq

/-- Modelled from the spec: the Fragment record of the missing fragment.rs —
screen-space position (x, y), a placeholder color, and interpolated depth;
Fragment::new(x, y, color, z) fills them in this order. -/
structure Frag (α : Type) where
  position : Vec2 α
  color : Vec3 α
  depth : α
deriving DecidableEq

/-- Per-draw-call uniforms (main.rs): model matrix, global time, body-type tag. -/
structure Uniforms (α : Type) where
  model_matrix : Mat4 α
  time : α
  planet_type : ℕ
deriving DecidableEq

/-- shaders.rs multiply_matrix_vector4: manual 4x4 matrix times homogeneous vector. -/
def multiply_matrix_vector4 (m : Mat4 ℚ) (v : Vec4 ℚ) : Vec4 ℚ :=
  ⟨m.m0 * v.x + m.m4 * v.y + m.m8 * v.z + m.m12 * v.w,
   m.m1 * v.x + m.m5 * v.y + m.m9 * v.z + m.m13 * v.w,
   m.m2 * v.x + m.m6 * v.y + m.m10 * v.z + m.m14 * v.w,
   m.m3 * v.x + m.m7 * v.y + m.m11 * v.z + m.m15 * v.w⟩

/-- shaders.rs vertex_shader: lift position to homogeneous w=1, multiply by the
model matrix, perspective-divide unless w = 0, then apply the isometric
depth shift (y gains z_factor * 5 where z_factor = z * 0.02), keeping the
original vertex attributes and the untransformed normal. -/
def vertex_shader (vertex : Vertex ℚ) (uniforms : Uniforms ℚ) : Vertex ℚ :=
  let position_vec4 : Vec4 ℚ :=
    ⟨vertex.position.x, vertex.position.y, vertex.position.z, 1⟩
  let transformed_vec4 := multiply_matrix_vector4 uniforms.model_matrix position_vec4
  let transformed_position_3d : Vec3 ℚ :=
    if transformed_vec4.w ≠ 0 then
      ⟨transformed_vec4.x / transformed_vec4.w,
       transformed_vec4.y / transformed_vec4.w,
       transformed_vec4.z / transformed_vec4.w⟩
    else
      ⟨transformed_vec4.x, transformed_vec4.y, transformed_vec4.z⟩
  let z_factor := transformed_position_3d.z * 0.02
  let transformed_position : Vec3 ℚ :=
    ⟨transformed_position_3d.x,
     transformed_position_3d.y + z_factor * 5,
     transformed_position_3d.z⟩
  { position := vertex.position
    normal := vertex.normal
    tex_coords := vertex.tex_coords
    color := vertex.color
    transformed_position := transformed_position
    transformed_normal := vertex.normal }

/-- main.rs render, primitive-assembly stage: step through the transformed
vertex stream three at a time, emitting a triangle for every index i with
i + 2 < len; the trailing group of fewer than three vertices is dropped. -/
def assemble {α : Type} : List α → List (α × α × α)
  | a :: b :: c :: rest => (a, b, c) :: assemble rest
  | _ => []

/-- An RGBA color with 8-bit channels (raylib Color), channels as naturals. -/
structure RColor where
  r : ℕ
  g : ℕ
  b : ℕ
  a : ℕ
deriving DecidableEq

/-- Rust numeric cast `expr as u8` for an f32 value: truncate toward zero and
saturate to [0, 255]; for the nonnegative values produced here truncation
coincides with the floor. -/
def rustAsU8 (q : ℚ) : ℕ :=
  (min 255 (max 0 ⌊q⌋)).toNat

/-- Rust f32::clamp(lo, hi). -/
def rclamp (x lo hi : ℚ) : ℚ :=
  min (max x lo) hi

/-- The pixel grid: a list of rows (top to bottom), each a list of colors. -/
abbrev Image := List (List RColor)

/-- raylib Image::gen_image_color: a width × height grid filled with one color. -/
def genImageColor (width height : ℕ) (c : RColor) : Image :=
  List.replicate height (List.replicate width c)

/-- raylib Image::draw_pixel: write one pixel, silently clipping writes whose
coordinates fall outside the grid (negative or past the row/column count). -/
def drawPixel (img : Image) (x y : ℤ) (c : RColor) : Image :=
  if 0 ≤ x ∧ 0 ≤ y then
    match img[y.toNat]? with
    | some row => img.set y.toNat (row.set x.toNat c)
    | none => img
  else img

/-- framebuffer.rs Framebuffer: size, pixel grid, background color, the
optional presentation texture, and the precomputed star field. -/
structure Framebuffer where
  width : ℕ
  height : ℕ
  image : Image
  background_color : Vec3 ℚ
  texture : Option Unit
  star_field : List (ℤ × ℤ × ℚ)
deriving DecidableEq

/-- One star of Framebuffer::generate_stars: three LCG steps (u64 multiply,
add, mod 2^31) give x, y and a brightness 0.3 + (seed % 70) / 100; the
recursion threads the seed through the remaining count. -/
def starLoop (width height : ℕ) : ℕ → ℕ → List (ℤ × ℤ × ℚ)
  | _, 0 => []
  | seed, n + 1 =>
    let s1 := (1103515245 * seed + 12345) % 2 ^ 31
    let x : ℤ := (s1 % width : ℕ)
    let s2 := (1103515245 * s1 + 12345) % 2 ^ 31
    let y : ℤ := (s2 % height : ℕ)
    let s3 := (1103515245 * s2 + 12345) % 2 ^ 31
    let brightness : ℚ := 0.3 + (s3 % 70 : ℕ) / 100
    (x, y, brightness) :: starLoop width height s3 n

/-- framebuffer.rs Framebuffer::generate_stars: 800 stars from the LCG seeded
with 12345. -/
def generate_stars (width height : ℕ) : List (ℤ × ℤ × ℚ) :=
  starLoop width height 12345 800

/-- framebuffer.rs Framebuffer::new: black image, zero background color, no
texture yet, and the precomputed star field. -/
def Framebuffer.new (width height : ℕ) : Framebuffer :=
  { width := width
    height := height
    image := genImageColor width height ⟨0, 0, 0, 255⟩
    background_color := ⟨0, 0, 0⟩
    texture := none
    star_field := generate_stars width height }

/-- The color of a star core pixel in Framebuffer::clear. -/
def starColor (brightness : ℚ) : RColor :=
  ⟨rustAsU8 (255 * brightness), rustAsU8 (255 * brightness),
   rustAsU8 (255 * brightness * 0.9), 255⟩

/-- The half-brightness color of the cross pixels around a bright star. -/
def starCrossColor (brightness : ℚ) : RColor :=
  ⟨rustAsU8 (255 * brightness * 0.5), rustAsU8 (255 * brightness * 0.5),
   rustAsU8 (255 * brightness * 0.45), 255⟩

/-- A pixel write guarded by a boundary test, as in the star cross drawing. -/
def drawIf (cond : Prop) [Decidable cond] (img : Image) (x y : ℤ) (c : RColor) : Image :=
  if cond then drawPixel img x y c else img

/-- Drawing one star of the star field in Framebuffer::clear: the core pixel,
then, when brightness > 0.8, four half-brightness pixels at the left, right,
upper and lower neighbors, each guarded against the buffer edge. -/
def drawStar (width height : ℕ) (img : Image) (s : ℤ × ℤ × ℚ) : Image :=
  let x := s.1
  let y := s.2.1
  let brightness := s.2.2
  let img1 := drawPixel img x y (starColor brightness)
  if brightness > 0.8 then
    let img2 := drawIf (0 < x) img1 (x - 1) y (starCrossColor brightness)
    let img3 := drawIf (x < (width : ℤ) - 1) img2 (x + 1) y (starCrossColor brightness)
    let img4 := drawIf (0 < y) img3 x (y - 1) (starCrossColor brightness)
    drawIf (y < (height : ℤ) - 1) img4 x (y + 1) (starCrossColor brightness)
  else img1

/-- framebuffer.rs Framebuffer::clear: fill every pixel with the background
color (scaled by 255 and cast to u8 per channel), then draw every star of the
precomputed star field. -/
def Framebuffer.clear (fb : Framebuffer) : Framebuffer :=
  let bg : RColor :=
    ⟨rustAsU8 (fb.background_color.x * 255),
     rustAsU8 (fb.background_color.y * 255),
     rustAsU8 (fb.background_color.z * 255), 255⟩
  let img0 := genImageColor fb.width fb.height bg
  { fb with image := fb.star_field.foldl (drawStar fb.width fb.height) img0 }

/-- framebuffer.rs Framebuffer::point: bounds-check 0 ≤ x < width and
0 ≤ y < height; in range, clamp each channel to [0,1], scale by 255, cast to
u8 and write the pixel; out of range, do nothing. -/
def Framebuffer.point (fb : Framebuffer) (x y : ℤ) (color : Vec3 ℚ) : Framebuffer :=
  if 0 ≤ x ∧ 0 ≤ y ∧ x < (fb.width : ℤ) ∧ y < (fb.height : ℤ) then
    { fb with image := (drawPixel fb.image x y
        ⟨rustAsU8 (rclamp color.x 0 1 * 255),
         rustAsU8 (rclamp color.y 0 1 * 255),
         rustAsU8 (rclamp color.z 0 1 * 255), 255⟩) }
  else fb

/-- Read back one pixel of the grid (row y, column x). -/
def getPixel (img : Image) (x y : ℕ) : Option RColor :=
  (img[y]?).bind fun row => row[x]?

/-- The grid has exactly h rows, each of width w. -/
def shapeOK (img : Image) (w h : ℕ) : Prop :=
  img.length = h ∧ ∀ row ∈ img, row.length = w

/-- A small concrete framebuffer used to instantiate the point bounds theorem. -/
def fbSmall : Framebuffer :=
  { width := 3
    height := 2
    image := genImageColor 3 2 ⟨0, 0, 0, 255⟩
    background_color := ⟨0, 0, 0⟩
    texture := none
    star_field := [] }

/-- triangle.rs sign: the edge function
(p1.x - p3.x)(p2.y - p3.y) - (p2.x - p3.x)(p1.y - p3.y). -/
def sign (p1 p2 p3 : Vec3 ℚ) : ℚ :=
  (p1.x - p3.x) * (p2.y - p3.y) - (p2.x - p3.x) * (p1.y - p3.y)

/-- The inclusive integer range lo..=hi as a list (empty when hi < lo). -/
def intRangeIncl (lo hi : ℤ) : List ℤ :=
  (List.range (hi + 1 - lo).toNat).map fun (i : ℕ) => lo + (i : ℤ)

/-- triangle.rs triangle: rasterize one triangle. Compute the integer bounding
box (floor of the coordinate minima, ceil of the maxima) of the three
transformed screen positions; for each integer point in the box evaluate the
three edge functions; emit a fragment when the signs are not strictly mixed,
with depth blended by |edge| weights normalized by their sum (floored at
0.0001) and a placeholder white color. -/
def triangleRast (v1 v2 v3 : Vertex ℚ) : List (Frag ℚ) :=
  let p1 := v1.transformed_position
  let p2 := v2.transformed_position
  let p3 := v3.transformed_position
  let min_x : ℤ := ⌊min (min p1.x p2.x) p3.x⌋
  let max_x : ℤ := ⌈max (max p1.x p2.x) p3.x⌉
  let min_y : ℤ := ⌊min (min p1.y p2.y) p3.y⌋
  let max_y : ℤ := ⌈max (max p1.y p2.y) p3.y⌉
  (intRangeIncl min_y max_y).flatMap fun (y : ℤ) =>
    (intRangeIncl min_x max_x).filterMap fun (x : ℤ) =>
      let pt : Vec3 ℚ := ⟨(x : ℚ), (y : ℚ), 0⟩
      let d1 := sign pt p1 p2
      let d2 := sign pt p2 p3
      let d3 := sign pt p3 p1
      let has_neg := d1 < 0 ∨ d2 < 0 ∨ d3 < 0
      let has_pos := d1 > 0 ∨ d2 > 0 ∨ d3 > 0
      if ¬(has_neg ∧ has_pos) then
        let total := max (|d1| + |d2| + |d3|) 0.0001
        let w1 := |d1| / total
        let w2 := |d2| / total
        let w3 := |d3| / total
        let z := p1.z * w1 + p2.z * w2 + p3.z * w3
        some ⟨⟨(x : ℚ), (y : ℚ)⟩, ⟨1, 1, 1⟩, z⟩
      else none

/-- The (unsigned) area enclosed by the three transformed screen positions,
half the absolute value of the edge function of the triangle itself. -/
def triangleArea (v1 v2 v3 : Vertex ℚ) : ℚ :=
  |sign v1.transformed_position v2.transformed_position v3.transformed_position| / 2

/-- A vertex placed at a given transformed screen position, for concrete
rasterizer inputs. -/
def mkTV (p : Vec3 ℚ) : Vertex ℚ :=
  { position := ⟨0, 0, 0⟩
    normal := ⟨0, 1, 0⟩
    tex_coords := ⟨0, 0⟩
    color := ⟨1, 1, 1⟩
    transformed_position := p
    transformed_normal := ⟨0, 1, 0⟩ }

/-- f32::MAX, the bounding-box fold seed in Obj::load, as an exact rational. -/
def f32MAX : ℚ := 340282346638528859811704183484516925440

/-- Coordinate k (0 = x, 1 = y, 2 = z) of vertex i in the flat position
array of Obj::load (mesh.positions[i * 3 + k]). -/
def posAt (positions : List ℚ) (i k : ℕ) : ℚ :=
  positions.getD (3 * i + k) 0

/-- The first normalization pass of Obj::load on one axis: fold min over all
vertices, seeded with f32::MAX. -/
def axisMin (positions : List ℚ) (k : ℕ) : ℚ :=
  (List.range (positions.length / 3)).foldl (fun m i => min m (posAt positions i k)) f32MAX

/-- The first normalization pass of Obj::load on one axis: fold max over all
vertices, seeded with f32::MIN = -f32::MAX. -/
def axisMax (positions : List ℚ) (k : ℕ) : ℚ :=
  (List.range (positions.length / 3)).foldl (fun m i => max m (posAt positions i k)) (-f32MAX)

/-- obj.rs Obj::load, normalization of one sub-model: positions is the flat
coordinate array (3 entries per vertex, num_vertices = positions.len() / 3).
The first pass folds min/max per axis starting from f32::MAX / f32::MIN
(one source loop updating six accumulators, modelled as the six folds
axisMin/axisMax); the second pass translates each vertex by the box center,
scales by 2 / max(size_x, size_y, size_z) (1 when that size is not positive)
and flips the Y axis. -/
def objNormalize (positions : List ℚ) : List (Vec3 ℚ) :=
  let min_x := axisMin positions 0
  let max_x := axisMax positions 0
  let min_y := axisMin positions 1
  let max_y := axisMax positions 1
  let min_z := axisMin positions 2
  let max_z := axisMax positions 2
  let center : Vec3 ℚ := ⟨(min_x + max_x) / 2, (min_y + max_y) / 2, (min_z + max_z) / 2⟩
  let size_x := max_x - min_x
  let size_y := max_y - min_y
  let size_z := max_z - min_z
  let max_size := max (max size_x size_y) size_z
  let scale := if max_size > 0 then 2 / max_size else 1
  (List.range (positions.length / 3)).map fun i =>
    ⟨(posAt positions i 0 - center.x) * scale,
     -(posAt positions i 1 - center.y) * scale,
     (posAt positions i 2 - center.z) * scale⟩

/-- raylib Vector2 * f32 (componentwise scalar multiply). -/
def v2smul (v : Vec2 ℝ) (s : ℝ) : Vec2 ℝ := ⟨v.x * s, v.y * s⟩

/-- raylib Vector2 + f32 (scalar added to both components). -/
def v2adds (v : Vec2 ℝ) (s : ℝ) : Vec2 ℝ := ⟨v.x + s, v.y + s⟩

/-- raylib Vector2 - f32 (scalar subtracted from both components). -/
def v2subs (v : Vec2 ℝ) (s : ℝ) : Vec2 ℝ := ⟨v.x - s, v.y - s⟩

/-- raylib Vector2 + Vector2. -/
def v2add (a b : Vec2 ℝ) : Vec2 ℝ := ⟨a.x + b.x, a.y + b.y⟩

/-- raylib Vector3 * f32 (componentwise scalar multiply). -/
def v3smul (v : Vec3 ℝ) (s : ℝ) : Vec3 ℝ := ⟨v.x * s, v.y * s, v.z * s⟩

/-- f32::clamp over the reals. -/
noncomputable def rclampR (x lo hi : ℝ) : ℝ := min (max x lo) hi

/-- Modelled library function: f32::atan2(self = y, other = x), the
four-quadrant arctangent. -/
noncomputable def atan2R (y x : ℝ) : ℝ :=
  if 0 < x then Real.arctan (y / x)
  else if x < 0 then
    (if 0 ≤ y then Real.arctan (y / x) + Real.pi else Real.arctan (y / x) - Real.pi)
  else
    (if 0 < y then Real.pi / 2 else if y < 0 then -(Real.pi / 2) else 0)

/-- Rust numeric cast `expr as i32` for an f32 value: truncate toward zero and
saturate to the i32 range. -/
noncomputable def rustAsI32 (x : ℝ) : ℤ :=
  max (-(2 ^ 31)) (min (2 ^ 31 - 1) (if 0 ≤ x then ⌊x⌋ else -⌊-x⌋))

/-- Rust % on i32 (remainder with the sign of the dividend), for a positive
modulus. -/
def rustRem (a b : ℤ) : ℤ :=
  if 0 ≤ a then a % b else -((-a) % b)

/-- shaders.rs hash: fract(sin(x * 43758.5453)). -/
noncomputable def hash (x : ℝ) : ℝ :=
  let h := Real.sin (x * 43758.5453)
  h - (⌊h⌋ : ℝ)

/-- shaders.rs noise: bilinear blend, with cubic smoothing 3t² - 2t³ per axis,
of the four corner hashes of the lattice cell containing p. -/
noncomputable def noise (p : Vec2 ℝ) : ℝ :=
  let i : Vec2 ℝ := ⟨(⌊p.x⌋ : ℝ), (⌊p.y⌋ : ℝ)⟩
  let f : Vec2 ℝ := ⟨p.x - i.x, p.y - i.y⟩
  let a := hash (i.x + i.y * 57)
  let b := hash (i.x + 1 + i.y * 57)
  let c := hash (i.x + (i.y + 1) * 57)
  let d := hash (i.x + 1 + (i.y + 1) * 57)
  let u := f.x * f.x * (3 - 2 * f.x)
  let v := f.y * f.y * (3 - 2 * f.y)
  a * (1 - u) * (1 - v) + b * u * (1 - v) + c * (1 - u) * v + d * u * v

/-- State of the shaders.rs fbm loop after n iterations:
(value, amplitude, frequency, max_value), starting from (0, 0.5, 1, 0);
each iteration adds amplitude * noise(p * frequency) to value, adds
amplitude to max_value, halves amplitude and doubles frequency. -/
noncomputable def fbmIter (p : Vec2 ℝ) : ℕ → ℝ × ℝ × ℝ × ℝ
  | 0 => (0, 0.5, 1, 0)
  | n + 1 =>
    let s := fbmIter p n
    (s.1 + s.2.1 * noise (v2smul p s.2.2.1), s.2.1 * 0.5, s.2.2.1 * 2, s.2.2.2 + s.2.1)

/-- shaders.rs fbm: run the loop octaves times (an i32 count; no iterations
when octaves ≤ 0) and divide the accumulated value by the accumulated
amplitude sum — unguarded when that sum is zero. -/
noncomputable def fbm (p : Vec2 ℝ) (octaves : ℤ) : ℝ :=
  let s := fbmIter p octaves.toNat
  s.1 / s.2.2.2

/-- shaders.rs mix_color: per-channel linear interpolation. -/
def mix_color (a b : Vec3 ℝ) (t : ℝ) : Vec3 ℝ :=
  ⟨a.x * (1 - t) + b.x * t, a.y * (1 - t) + b.y * t, a.z * (1 - t) + b.z * t⟩

/-- shaders.rs smoothstep: clamped cubic smoothstep. -/
noncomputable def smoothstep (edge0 edge1 x : ℝ) : ℝ :=
  let t := rclampR ((x - edge0) / (edge1 - edge0)) 0 1
  t * t * (3 - 2 * t)

/-- shaders.rs sun_shader: 5-layer solar surface; returns black when the
transformed surface position is within 0.001 of the origin. -/
noncomputable def sun_shader (_fragment : Frag ℝ) (vertex : Vertex ℝ) (time : ℝ) : Vec3 ℝ :=
  let pos := vertex.transformed_position
  let len := Real.sqrt (pos.x * pos.x + pos.y * pos.y + pos.z * pos.z)
  if len < 0.001 then ⟨0, 0, 0⟩
  else
    let norm : Vec3 ℝ := ⟨pos.x / len, pos.y / len, pos.z / len⟩
    let u := (atan2R norm.x norm.z / Real.pi + 1) * 0.5
    let v := Real.arcsin norm.y / Real.pi + 0.5
    let uv : Vec2 ℝ := ⟨u, v⟩
    let core_gradient := v3smul ⟨1, 1, 0.2⟩ (0.8 + fbm (v2smul uv 2) 2 * 0.2)
    let photosphere := fbm (v2adds (v2smul uv 6) (time * 0.25)) 4
    let photosphere_color : Vec3 ℝ := ⟨1, 0.7, 0⟩
    let with_photosphere := mix_color core_gradient photosphere_color (photosphere * 0.6)
    let prominences := fbm (v2subs (v2smul uv 8) (time * 0.15)) 3
    let prominence_height := |uv.y - 0.5| * 2
    let prominence_effect := (1 - prominence_height) * prominences
    let prominence_color : Vec3 ℝ := ⟨1, 0.9, 0.3⟩
    let with_prominences := mix_color with_photosphere prominence_color (prominence_effect * 0.4)
    let corona_pattern := fbm (v2adds (v2smul uv 12) (time * 0.3)) 2
    let corona_radius := Real.sqrt ((uv.x - 0.5) * (uv.x - 0.5) + (uv.y - 0.5) * (uv.y - 0.5))
    let corona_glow := rclampR (0.5 - corona_radius) 0 0.3 * corona_pattern
    let corona_color : Vec3 ℝ := ⟨1, 0.95, 0.7⟩
    let with_corona := mix_color with_prominences corona_color (corona_glow * 0.5)
    let magnetic_fields := |Real.sin time * Real.sin (uv.x * 25 + time * 0.1) * Real.cos (uv.y * 15)|
    let magnetic_color : Vec3 ℝ := ⟨1, 1, 0.4⟩
    mix_color with_corona magnetic_color (magnetic_fields * 0.15)

/-- shaders.rs earth_shader: 7-layer earth-like planet; returns black when the
transformed surface position is within 0.001 of the origin. -/
noncomputable def earth_shader (_fragment : Frag ℝ) (vertex : Vertex ℝ) (time : ℝ) : Vec3 ℝ :=
  let pos := vertex.transformed_position
  let len := Real.sqrt (pos.x * pos.x + pos.y * pos.y + pos.z * pos.z)
  if len < 0.001 then ⟨0, 0, 0⟩
  else
    let norm : Vec3 ℝ := ⟨pos.x / len, pos.y / len, pos.z / len⟩
    let u := (atan2R norm.x norm.z / Real.pi + 1) * 0.5
    let v := Real.arcsin norm.y / Real.pi + 0.5
    let uv : Vec2 ℝ := ⟨u, v⟩
    let ocean_depth := fbm (v2smul uv 3) 2
    let ocean_base := mix_color ⟨0, 0.2, 0.5⟩ ⟨0, 0.4, 0.8⟩ ocean_depth
    let land_noise1 := fbm (v2smul uv 4) 5
    let land_noise2 := fbm (v2subs (v2smul uv 8) (time * 0.01)) 4
    let land_combined := land_noise1 * 0.7 + land_noise2 * 0.3
    let land_mask := smoothstep 0.35 0.65 land_combined
    let land_texture := fbm (v2adds (v2smul uv 12) (time * 0.001)) 3
    let land_color : Vec3 ℝ :=
      if rustRem (rustAsI32 (land_texture * 100)) 3 = 0 then ⟨0.1, 0.4, 0.1⟩
      else if rustRem (rustAsI32 (land_texture * 100)) 3 = 1 then ⟨0.6, 0.55, 0.2⟩
      else ⟨0.7, 0.6, 0.3⟩
    let with_land := mix_color ocean_base land_color (land_mask * 0.9)
    let mountain_detail1 := fbm (v2smul uv 30) 4
    let mountain_detail2 := fbm (v2subs (v2smul uv 50) (time * 0.02)) 3
    let mountain_combined := mountain_detail1 * 0.6 + mountain_detail2 * 0.4
    let mountain_mask := land_mask * smoothstep 0.2 0.8 mountain_combined
    let mountain_color := mix_color ⟨0.5, 0.4, 0.3⟩ ⟨0.7, 0.65, 0.6⟩ mountain_combined
    let with_mountains := mix_color with_land mountain_color (mountain_mask * 0.85)
    let trench_detail := fbm (v2smul uv 20) 3
    let trench_mask := (1 - land_mask) * smoothstep 0.2 0.7 trench_detail
    let trench_color : Vec3 ℝ := ⟨0, 0.1, 0.3⟩
    let with_trenches := mix_color with_mountains trench_color (trench_mask * 0.5)
    let cloud_noise1 := fbm (v2adds (v2smul uv 5) (time * 0.08)) 4
    let cloud_noise2 := fbm (v2subs (v2smul uv 7) (time * 0.05)) 3
    let cloud_noise3 := fbm (v2adds (v2smul uv 3) (time * 0.03)) 2
    let clouds_combined := (cloud_noise1 + cloud_noise2 + cloud_noise3) / 3
    let clouds := smoothstep 0.25 0.85 clouds_combined
    let cloud_color : Vec3 ℝ := ⟨0.95, 0.98, 1⟩
    let with_clouds := mix_color with_trenches cloud_color (clouds * 0.65)
    let storm_x := (u - 0.4) * (u - 0.4)
    let storm_y := (v - 0.3) * (v - 0.3)
    let storm_dist := Real.sqrt (storm_x + storm_y)
    let storm_interior := fbm (v2adds (v2smul uv 25) (time * 0.1)) 3
    let storm_color : Vec3 ℝ := ⟨0.4, 0.4, 0.5⟩
    let with_storms := mix_color with_clouds storm_color
      (smoothstep 0.25 0.05 storm_dist * storm_interior * 0.6)
    let ice_factor := rclampR (1 - |v - 0.5| * 2.5) 0 1
    let ice_sparkle := fbm (v2subs (v2smul uv 40) (time * 0.05)) 2
    let ice_color := mix_color ⟨0.9, 0.95, 1⟩ ⟨1, 1, 0.95⟩ (ice_sparkle * 0.5)
    let with_ice := mix_color with_storms ice_color (ice_factor * 0.5)
    let rim_dist := Real.sqrt ((uv.x - 0.5) * (uv.x - 0.5) + (uv.y - 0.5) * (uv.y - 0.5))
    let rim_factor := smoothstep 0.75 1 (rim_dist * 1.3)
    let atmosphere_color : Vec3 ℝ := ⟨0.4, 0.7, 1⟩
    mix_color with_ice atmosphere_color (rim_factor * 0.4)

/-- shaders.rs gas_giant_shader: 5-layer gas giant; returns black when the
transformed surface position is within 0.001 of the origin. -/
noncomputable def gas_giant_shader (_fragment : Frag ℝ) (vertex : Vertex ℝ) (time : ℝ) : Vec3 ℝ :=
  let pos := vertex.transformed_position
  let len := Real.sqrt (pos.x * pos.x + pos.y * pos.y + pos.z * pos.z)
  if len < 0.001 then ⟨0, 0, 0⟩
  else
    let norm : Vec3 ℝ := ⟨pos.x / len, pos.y / len, pos.z / len⟩
    let u := (atan2R norm.x norm.z / Real.pi + 1) * 0.5
    let v := Real.arcsin norm.y / Real.pi + 0.5
    let uv : Vec2 ℝ := ⟨u, v⟩
    let base_color := mix_color ⟨1, 0.6, 0.2⟩ ⟨0.8, 0.4, 0.1⟩ v
    let bands := min (max (Real.sin (v * 20 + time * 0.1) * 0.5 + 0.5) 0) 1
    let band_darkness := smoothstep 0.3 0.6 bands
    let band_color : Vec3 ℝ := ⟨0.6, 0.3, 0.1⟩
    let with_bands := mix_color base_color band_color (band_darkness * 0.5)
    let storm_noise1 := fbm (v2adds (v2smul uv 8) (time * 0.08)) 4
    let storm_noise2 := fbm (v2subs (v2smul uv 5) (time * 0.12)) 3
    let storms := (storm_noise1 + storm_noise2) * 0.5
    let storm_mask := smoothstep 0.2 0.8 storms
    let storm_color := mix_color ⟨0.7, 0.4, 0.1⟩ ⟨0.4, 0.2, 0⟩ (fbm (v2smul uv 15) 2)
    let with_storms := mix_color with_bands storm_color (storm_mask * 0.6)
    let spot_x := u - 0.6
    let spot_y := v - 0.35
    let spot_dist := Real.sqrt (spot_x * spot_x + spot_y * spot_y)
    let spot_swirl := fbm ⟨u * 10 + spot_dist * 20 - time * 0.1, v * 5⟩ 3
    let red_spot_color := mix_color ⟨1, 0.3, 0⟩ ⟨0.8, 0.1, 0⟩ spot_swirl
    let spot_effect := smoothstep 0.2 0.05 spot_dist
    let with_spot := mix_color with_storms red_spot_color (spot_effect * 0.9)
    let lightning_x := Real.sin (u * 50 + time * 0.3) * 0.1
    let lightning_y := Real.sin (v * 40 - time * 0.25) * 0.1
    let lightning_intensity := rclampR (|lightning_x + lightning_y| - 0.1) 0 0.2
    let lightning_color : Vec3 ℝ := ⟨1, 1, 0.3⟩
    mix_color with_spot lightning_color (lightning_intensity * 0.3)

/-- shaders.rs moon_shader: 6-layer lunar surface; returns black when the
transformed surface position is within 0.001 of the origin. -/
noncomputable def moon_shader (_fragment : Frag ℝ) (vertex : Vertex ℝ) (time : ℝ) : Vec3 ℝ :=
  let pos := vertex.transformed_position
  let len := Real.sqrt (pos.x * pos.x + pos.y * pos.y + pos.z * pos.z)
  if len < 0.001 then ⟨0, 0, 0⟩
  else
    let norm : Vec3 ℝ := ⟨pos.x / len, pos.y / len, pos.z / len⟩
    let u := (atan2R norm.x norm.z / Real.pi + 1) * 0.5
    let v := Real.arcsin norm.y / Real.pi + 0.5
    let uv : Vec2 ℝ := ⟨u, v⟩
    let base_noise := fbm (v2smul uv 2) 2
    let base := mix_color ⟨0.45, 0.45, 0.47⟩ ⟨0.6, 0.6, 0.62⟩ base_noise
    let large_craters := fbm (v2smul uv 6) 3
    let crater_large_mask := rclampR ((large_craters - 0.35) * 2.5) 0 1
    let crater_large_color : Vec3 ℝ := ⟨0.25, 0.25, 0.27⟩
    let with_large_craters := mix_color base crater_large_color (crater_large_mask * 0.8)
    let medium_craters1 := fbm (v2smul uv 12) 4
    let medium_craters2 := fbm (v2subs (v2smul uv 15) (time * 0.01)) 3
    let crater_medium_combined := (medium_craters1 + medium_craters2) * 0.5
    let crater_medium_mask := rclampR ((crater_medium_combined - 0.3) * 2) 0 1
    let crater_medium_color : Vec3 ℝ := ⟨0.35, 0.35, 0.37⟩
    let with_medium_craters := mix_color with_large_craters crater_medium_color (crater_medium_mask * 0.6)
    let fine_texture1 := fbm (v2smul uv 25) 4
    let fine_texture2 := fbm (v2subs (v2smul uv 35) (time * 0.02)) 3
    let fine_texture3 := fbm (v2smul uv 50) 2
    let fine_combined := (fine_texture1 + fine_texture2 + fine_texture3) / 3
    let regolith_color := mix_color ⟨0.4, 0.4, 0.42⟩ ⟨0.65, 0.65, 0.67⟩ fine_combined
    let with_regolith := mix_color with_medium_craters regolith_color (fine_combined * 0.5)
    let peak_detail := fbm (v2smul uv 20) 3
    let peak_mask := rclampR (peak_detail - 0.4) 0 0.6
    let peak_highlight : Vec3 ℝ := ⟨0.85, 0.85, 0.87⟩
    let with_peaks := mix_color with_regolith peak_highlight (peak_mask * 0.7)
    let variation1 := fbm (v2smul uv 3) 2
    let variation2 := fbm (v2adds (v2smul uv 8) (time * 0.005)) 2
    let variation_combined := (variation1 + variation2) * 0.5
    let mineral_colors : Vec3 ℝ :=
      if rustRem (rustAsI32 (variation_combined * 100)) 3 = 0 then ⟨0.55, 0.55, 0.58⟩
      else if rustRem (rustAsI32 (variation_combined * 100)) 3 = 1 then ⟨0.65, 0.62, 0.60⟩
      else ⟨0.48, 0.50, 0.52⟩
    mix_color with_peaks mineral_colors (variation_combined * 0.3)

/-- shaders.rs ring_shader: Saturn-like ring bands driven by the fragment's
original texture coordinates (no spherical projection, no length guard). -/
noncomputable def ring_shader (_fragment : Frag ℝ) (vertex : Vertex ℝ) (time : ℝ) : Vec3 ℝ :=
  let u := vertex.tex_coords.x
  let v := vertex.tex_coords.y
  let r0 := (u - 0.5) * (u - 0.5) + (v - 0.5) * (v - 0.5)
  let r := Real.sqrt r0 * 2
  let base : Vec3 ℝ := ⟨0.9, 0.85, 0.6⟩
  let bands := min (max (Real.sin (r * 30) * 0.5 + 0.5) 0) 1
  let band_color : Vec3 ℝ := ⟨0.7, 0.6, 0.3⟩
  let with_bands := mix_color base band_color (bands * 0.5)
  let particles := fbm ⟨u * 10, r * 20 + time * 0.5⟩ 3
  let shadow := mix_color with_bands ⟨0.5, 0.4, 0.1⟩ (particles * 0.4)
  let edge_darkness := smoothstep 0 0.2 r * smoothstep 1.5 1 r
  mix_color shadow ⟨0.2, 0.15, 0.05⟩ ((1 - edge_darkness) * 0.6)

/-- shaders.rs neptune_shader: 5-layer ice giant; returns black when the
transformed surface position is within 0.001 of the origin. -/
noncomputable def neptune_shader (_fragment : Frag ℝ) (vertex : Vertex ℝ) (time : ℝ) : Vec3 ℝ :=
  let pos := vertex.transformed_position
  let len := Real.sqrt (pos.x * pos.x + pos.y * pos.y + pos.z * pos.z)
  if len < 0.001 then ⟨0, 0, 0⟩
  else
    let norm : Vec3 ℝ := ⟨pos.x / len, pos.y / len, pos.z / len⟩
    let u := (atan2R norm.x norm.z / Real.pi + 1) * 0.5
    let v := Real.arcsin norm.y / Real.pi + 0.5
    let uv : Vec2 ℝ := ⟨u, v⟩
    let base_color := mix_color ⟨0, 0.2, 0.6⟩ ⟨0.1, 0.3, 0.9⟩ (v * 0.7)
    let cloud_bands := min (max (Real.sin (v * 15 - time * 0.08) * 0.5 + 0.5) 0) 1
    let band_noise := fbm (v2smul uv 4) 2
    let cloud_mask := smoothstep 0.3 0.7 (cloud_bands + band_noise * 0.3)
    let with_clouds := mix_color base_color ⟨0.9, 0.95, 1⟩ (cloud_mask * 0.4)
    let spot_x := (u - 0.5) * (u - 0.5)
    let spot_y := (v - 0.5 - 0.1) * (v - 0.5 - 0.1)
    let spot_dist := Real.sqrt (spot_x + spot_y)
    let spot_interior := fbm (v2adds (v2smul uv 12) (time * 0.15)) 3
    let dark_spot := mix_color ⟨0, 0.1, 0.3⟩ ⟨0.1, 0.2, 0.5⟩ spot_interior
    let spot_effect := smoothstep 0.25 0.05 spot_dist
    let with_spot := mix_color with_clouds dark_spot (spot_effect * 0.8)
    let wind_streak := Real.sin (u * 30 - time * 0.4) * 0.5 + 0.5
    let streak_mask := smoothstep 0.3 0.55 v * smoothstep 0.65 0.55 v
    let white_streaks : Vec3 ℝ := ⟨1, 1, 1⟩
    let with_streaks := mix_color with_spot white_streaks ((|wind_streak| - 0.3) * streak_mask * 0.3)
    let turbulence := fbm (v2subs (v2smul uv 7) (time * 0.12)) 4
    let depth_color : Vec3 ℝ := ⟨0, 0.1, 0.4⟩
    mix_color with_streaks depth_color (turbulence * 0.15)

/-- shaders.rs uranus_shader: 5-layer cyan ice giant; returns black when the
transformed surface position is within 0.001 of the origin. -/
noncomputable def uranus_shader (_fragment : Frag ℝ) (vertex : Vertex ℝ) (time : ℝ) : Vec3 ℝ :=
  let pos := vertex.transformed_position
  let len := Real.sqrt (pos.x * pos.x + pos.y * pos.y + pos.z * pos.z)
  if len < 0.001 then ⟨0, 0, 0⟩
  else
    let norm : Vec3 ℝ := ⟨pos.x / len, pos.y / len, pos.z / len⟩
    let u := (atan2R norm.x norm.z / Real.pi + 1) * 0.5
    let v := Real.arcsin norm.y / Real.pi + 0.5
    let uv : Vec2 ℝ := ⟨u, v⟩
    let base_color := mix_color ⟨0.3, 0.8, 0.9⟩ ⟨0.2, 0.6, 0.8⟩ (fbm (v2smul uv 2) 2)
    let frost := fbm (v2adds (v2smul uv 6) (time * 0.05)) 3
    let frost_color : Vec3 ℝ := ⟨0.6, 0.95, 1⟩
    let with_frost := mix_color base_color frost_color (frost * 0.6)
    let polar_bands := min (max (Real.sin (v * 8) * 0.5 + 0.5) 0) 1
    let band_color := mix_color ⟨0.2, 0.5, 0.7⟩ ⟨0.4, 0.9, 1⟩ (fbm (v2smul uv 10) 2)
    let with_bands := mix_color with_frost band_color (polar_bands * 0.3)
    let tilted_u := u - 0.3 * Real.sin (time * 0.1)
    let tilted_v := v - 0.5 + 0.2 * Real.cos (time * 0.08)
    let storm_x := (tilted_u - 0.5) * (tilted_u - 0.5)
    let storm_y := (tilted_v - 0.3) * (tilted_v - 0.3)
    let storm_dist := Real.sqrt (storm_x + storm_y)
    let storm_interior := fbm (v2adds (v2smul uv 14) (time * 0.2)) 3
    let storm_color := mix_color ⟨0.1, 0.4, 0.6⟩ ⟨0.5, 0.9, 1⟩ storm_interior
    let storm_effect := smoothstep 0.2 0.04 storm_dist
    let with_storm := mix_color with_bands storm_color (storm_effect * 0.9)
    let gloss := fbm (v2subs (v2smul uv 20) (time * 0.3)) 2
    let shimmer := smoothstep 0.4 0.6 gloss
    let shine_color : Vec3 ℝ := ⟨1, 1, 1⟩
    mix_color with_storm shine_color (shimmer * 0.2)

/-- shaders.rs venus_shader: 7-layer hellish planet; returns black when the
transformed surface position is within 0.001 of the origin. -/
noncomputable def venus_shader (_fragment : Frag ℝ) (vertex : Vertex ℝ) (time : ℝ) : Vec3 ℝ :=
  let pos := vertex.transformed_position
  let len := Real.sqrt (pos.x * pos.x + pos.y * pos.y + pos.z * pos.z)
  if len < 0.001 then ⟨0, 0, 0⟩
  else
    let norm : Vec3 ℝ := ⟨pos.x / len, pos.y / len, pos.z / len⟩
    let u := (atan2R norm.x norm.z / Real.pi + 1) * 0.5
    let v := Real.arcsin norm.y / Real.pi + 0.5
    let uv : Vec2 ℝ := ⟨u, v⟩
    let base_noise := fbm (v2smul uv 2) 2
    let base_color := mix_color ⟨1, 0.85, 0.2⟩ ⟨0.9, 0.7, 0.1⟩ base_noise
    let cloud_swirl1 := fbm (v2adds (v2smul uv 5) (time * 0.2)) 4
    let cloud_swirl2 := fbm (v2subs (v2smul uv 8) (time * 0.15)) 4
    let cloud_swirl3 := fbm (v2adds (v2smul uv 3) (time * 0.08)) 3
    let clouds_combined := (cloud_swirl1 + cloud_swirl2 + cloud_swirl3) / 3
    let cloud_color := mix_color ⟨1, 0.9, 0.3⟩ ⟨0.7, 0.5, 0⟩ clouds_combined
    let with_clouds := mix_color base_color cloud_color 0.8
    let surface_detail1 := fbm (v2smul uv 15) 4
    let surface_detail2 := fbm (v2subs (v2smul uv 25) (time * 0.01)) 3
    let surface_combined := surface_detail1 * 0.6 + surface_detail2 * 0.4
    let surface_visibility := smoothstep 0.3 0.7 surface_combined * 0.35
    let surface_color := mix_color ⟨0.6, 0.5, 0.3⟩ ⟨0.7, 0.6, 0.4⟩ surface_detail1
    let with_surface := mix_color with_clouds surface_color surface_visibility
    let volcano1 := fbm (v2adds (v2smul uv 10) (time * 0.08)) 3
    let volcano2 := fbm (v2subs (v2smul (v2add uv ⟨0.3, 0.4⟩) 12) (time * 0.1)) 3
    let volcano3 := fbm (v2adds (v2smul (v2add uv ⟨-0.4, -0.3⟩) 8) (time * 0.06)) 2
    let volcanic_mask1 := rclampR ((volcano1 - 0.25) * 3) 0 1
    let volcanic_mask2 := rclampR ((volcano2 - 0.28) * 3) 0 1
    let volcanic_mask3 := rclampR ((volcano3 - 0.35) * 3) 0 1
    let hot_spot_color1 := mix_color ⟨1, 0.2, 0⟩ ⟨1, 0.6, 0⟩ volcano1
    let with_volcanoes := mix_color with_surface hot_spot_color1
      ((volcanic_mask1 * 0.6 + volcanic_mask2 * 0.3 + volcanic_mask3 * 0.2) * 0.75)
    let super_rotate := min (max (Real.sin (v * 25 + u * 5 - time * 0.25) * 0.5 + 0.5) 0) 1
    let band_noise1 := fbm (v2smul uv 15) 3
    let band_noise2 := fbm (v2subs (v2smul uv 20) (time * 0.05)) 2
    let band_combined := band_noise1 * 0.6 + band_noise2 * 0.4
    let band_color : Vec3 ℝ := ⟨0.9, 0.6, 0⟩
    let with_bands := mix_color with_volcanoes band_color (super_rotate * band_combined * 0.4)
    let sulfur_pattern1 := fbm (v2adds (v2smul uv 12) (time * 0.12)) 3
    let sulfur_pattern2 := fbm (v2subs (v2smul uv 18) (time * 0.08)) 2
    let sulfur_combined := (sulfur_pattern1 + sulfur_pattern2) * 0.5
    let sulfur_color : Vec3 ℝ := ⟨1, 0.95, 0.5⟩
    let sulfur_mask := smoothstep 0.3 0.7 sulfur_combined * 0.2
    let with_sulfur := mix_color with_bands sulfur_color sulfur_mask
    let rim_distance := Real.sqrt ((uv.x - 0.5) * (uv.x - 0.5) + (uv.y - 0.5) * (uv.y - 0.5))
    let rim := smoothstep 0.6 1 (rim_distance * 1.2)
    let glow_color : Vec3 ℝ := ⟨1, 0.5, 0⟩
    mix_color with_sulfur glow_color (rim * 0.5)

/-- shaders.rs get_planet_color: dispatch on the planet_type tag; unknown tags
fall back to flat white. -/
noncomputable def get_planet_color (fragment : Frag ℝ) (vertex : Vertex ℝ) (time : ℝ)
    (planet_type : ℕ) : Vec3 ℝ :=
  match planet_type with
  | 0 => sun_shader fragment vertex time
  | 1 => earth_shader fragment vertex time
  | 2 => gas_giant_shader fragment vertex time
  | 3 => moon_shader fragment vertex time
  | 4 => ring_shader fragment vertex time
  | 5 => neptune_shader fragment vertex time
  | 6 => uranus_shader fragment vertex time
  | 7 => venus_shader fragment vertex time
  | _ => ⟨1, 1, 1⟩

/-- A concrete real-valued vertex with a given transformed position, for
instantiating the shader guard theorem. -/
def mkRV (p : Vec3 ℝ) : Vertex ℝ :=
  { position := ⟨0, 0, 0⟩
    normal := ⟨0, 1, 0⟩
    tex_coords := ⟨0, 0⟩
    color := ⟨1, 1, 1⟩
    transformed_position := p
    transformed_normal := ⟨0, 1, 0⟩ }

/-- A concrete real-valued fragment, for instantiating the shader guard
theorem. -/
def mkRF : Frag ℝ := ⟨⟨0, 0⟩, ⟨1, 1, 1⟩, 0⟩

/-- Identity model matrix (raylib layout), used for concrete instantiations. -/
def idMat4 : Mat4 ℚ :=
  ⟨1, 0, 0, 0, 0, 1, 0, 0, 0, 0, 1, 0, 0, 0, 0, 1⟩

/-- All-zero model matrix, used to exercise the w = 0 edge case. -/
def zeroMat4 : Mat4 ℚ :=
  ⟨0, 0, 0, 0, 0, 0, 0, 0, 0, 0, 0, 0, 0, 0, 0, 0⟩

/-- A concrete vertex whose object-space position is p. -/
def mkVertex (p : Vec3 ℚ) : Vertex ℚ :=
  { position := p
    normal := ⟨0, 1, 0⟩
    tex_coords := ⟨0, 0⟩
    color := ⟨1, 1, 1⟩
    transformed_position := ⟨0, 0, 0⟩
    transformed_normal := ⟨0, 1, 0⟩ }

end Render

namespace Render

/-- C1: counterexample. With the identity model matrix and position (0,0,1),
the post-multiply homogeneous vector is (0,0,1,1) with w = 1 ≠ 0, so the
claim demands transformed_position = (0,0,1); the code instead yields
(0, 0.1, 1) because of the isometric depth shift applied after the divide. -/
theorem vertex_shader_divide_cex :
    (multiply_matrix_vector4 idMat4 ⟨0, 0, 1, 1⟩).w = 1 ∧
    (vertex_shader (mkVertex ⟨0, 0, 1⟩) ⟨idMat4, 0, 0⟩).transformed_position ≠ ⟨0, 0, 1⟩ := by
  constructor
  · norm_num [multiply_matrix_vector4, idMat4]
  · intro h
    have hy := congrArg Vec3.y h
    simp [vertex_shader, multiply_matrix_vector4, idMat4, mkVertex] at hy
    norm_num at hy

/-- C1 (amended): vertex_shader lifts the position to homogeneous form with
w = 1 and multiplies by uniforms.model_matrix; when the resulting w ≠ 0 the
output transformed_position is the perspective-divided (x/w, y/w, z/w)
with an additional depth shift on y of 0.1 * (z/w); when w = 0 the
pre-divide (x, y, z) is used in place of the divided values, again with
y shifted by 0.1 * z. -/
theorem vertex_shader_divide (v : Vertex ℚ) (u : Uniforms ℚ)
    (t : Vec4 ℚ)
    (ht : t = multiply_matrix_vector4 u.model_matrix ⟨v.position.x, v.position.y, v.position.z, 1⟩) :
    (t.w ≠ 0 →
      (vertex_shader v u).transformed_position =
        ⟨t.x / t.w, t.y / t.w + 0.1 * (t.z / t.w), t.z / t.w⟩) ∧
    (t.w = 0 →
      (vertex_shader v u).transformed_position = ⟨t.x, t.y + 0.1 * t.z, t.z⟩) := by
  subst ht
  simp only [vertex_shader]
  constructor
  · intro hw
    rw [if_pos hw]
    simp only [Vec3.mk.injEq]
    exact ⟨trivial, by ring, trivial⟩
  · intro hw
    rw [if_neg (by simp [hw])]
    simp only [Vec3.mk.injEq]
    exact ⟨trivial, by ring, trivial⟩

/-- C1 witness: concrete instantiation of both cases of the amended theorem —
identity matrix (w = 1) at position (1,2,3), and the zero matrix (w = 0). -/
theorem vertex_shader_divide_witness :
    (vertex_shader (mkVertex ⟨1, 2, 3⟩) ⟨idMat4, 0, 0⟩).transformed_position =
      ⟨1, 23 / 10, 3⟩ ∧
    (vertex_shader (mkVertex ⟨1, 2, 3⟩) ⟨zeroMat4, 0, 0⟩).transformed_position =
      ⟨0, 0, 0⟩ := by
  constructor
  · have h := (vertex_shader_divide (mkVertex ⟨1, 2, 3⟩) ⟨idMat4, 0, 0⟩ _ rfl).1
      (by norm_num [multiply_matrix_vector4, idMat4, mkVertex])
    rw [h]
    norm_num [multiply_matrix_vector4, idMat4, mkVertex]
  · have h := (vertex_shader_divide (mkVertex ⟨1, 2, 3⟩) ⟨zeroMat4, 0, 0⟩ _ rfl).2
      (by norm_num [multiply_matrix_vector4, zeroMat4, mkVertex])
    rw [h]
    norm_num [multiply_matrix_vector4, zeroMat4, mkVertex]

/-- C9: the vertex returned by vertex_shader keeps the original position,
normal, tex_coords and color, and its transformed_normal is simply the
untransformed input normal (no inverse-transpose transformation). -/
theorem vertex_shader_preserves_attributes (v : Vertex ℚ) (u : Uniforms ℚ) :
    (vertex_shader v u).position = v.position ∧
    (vertex_shader v u).normal = v.normal ∧
    (vertex_shader v u).tex_coords = v.tex_coords ∧
    (vertex_shader v u).color = v.color ∧
    (vertex_shader v u).transformed_normal = v.normal := by
  simp [vertex_shader]

/-- C6: primitive assembly groups every 3 consecutive transformed vertices
into one triangle: exactly ⌊n / 3⌋ triangles are produced, the k-th being
the vertices at positions 3k, 3k+1, 3k+2 in order; a trailing group of one
or two vertices is dropped. -/
theorem assemble_groups {α : Type} (vs : List α) :
    (assemble vs).length = vs.length / 3 ∧
    ∀ k : ℕ,
      (assemble vs)[k]? =
        match vs[3 * k]?, vs[3 * k + 1]?, vs[3 * k + 2]? with
        | some a, some b, some c => some (a, b, c)
        | _, _, _ => none := by
  constructor
  · exact assemble_length vs
  · exact assemble_getElem vs
where
  assemble_length : ∀ vs : List α, (assemble vs).length = vs.length / 3
    | [] => by simp [assemble]
    | [_] => by simp [assemble]
    | [_, _] => by simp [assemble]
    | a :: b :: c :: rest => by
        have ih := assemble_length rest
        simp only [assemble, List.length_cons, ih]
        omega
  assemble_getElem : ∀ (vs : List α) (k : ℕ),
      (assemble vs)[k]? =
        match vs[3 * k]?, vs[3 * k + 1]?, vs[3 * k + 2]? with
        | some a, some b, some c => some (a, b, c)
        | _, _, _ => none
    | [], k => by simp [assemble]
    | [a], k => by
        simp only [assemble]
        match k with
        | 0 => simp
        | k + 1 => simp [show 3 * (k + 1) = 3 * k + 3 by ring]
    | [a, b], k => by
        simp only [assemble]
        match k with
        | 0 => simp
        | k + 1 =>
          have h1 : 3 * (k + 1) = 3 * k + 3 := by ring
          simp [h1]
    | a :: b :: c :: rest, k => by
        match k with
        | 0 => simp [assemble]
        | k + 1 =>
          have ih := assemble_getElem rest k
          have h0 : 3 * (k + 1) = 3 * k + 3 := by ring
          simp only [assemble, h0]
          simpa using ih

end Render

namespace Render

/-- Writing a pixel either leaves a queried cell unchanged or stores the
written color there. -/
theorem getPixel_drawPixel_cases (img : Image) (x y : ℤ) (c : RColor) (a b : ℕ) :
    getPixel (drawPixel img x y c) a b = getPixel img a b ∨
    getPixel (drawPixel img x y c) a b = some c := by
  unfold drawPixel
  split
  · cases himg : img[y.toNat]? with
    | none => left; rfl
    | some row =>
      dsimp only
      unfold getPixel
      rw [List.getElem?_set]
      by_cases hb : y.toNat = b
      · have hlen : y.toNat < img.length := (List.getElem?_eq_some.mp himg).1
        rw [if_pos hb, if_pos (hb ▸ hlen)]
        have hrow : img[b]? = some row := hb ▸ himg
        rw [hrow]
        simp only [Option.some_bind, List.getElem?_set]
        by_cases ha : x.toNat = a
        · by_cases har : a < row.length
          · right; rw [if_pos ha, if_pos (ha ▸ har)]
          · left
            rw [if_pos ha, if_neg (ha ▸ har)]
            rw [List.getElem?_eq_none (by omega)]
        · left; rw [if_neg ha]
      · left; rw [if_neg hb]
  · left; rfl

/-- A pixel write at integer coordinates different from the queried cell
leaves that cell unchanged. -/
theorem getPixel_drawPixel_ne (img : Image) (x y : ℤ) (c : RColor) (a b : ℕ)
    (h : ¬(x = (a : ℤ) ∧ y = (b : ℤ))) :
    getPixel (drawPixel img x y c) a b = getPixel img a b := by
  unfold drawPixel
  split
  · next hxy =>
    cases himg : img[y.toNat]? with
    | none => rfl
    | some row =>
      dsimp only
      unfold getPixel
      rw [List.getElem?_set]
      by_cases hb : y.toNat = b
      · have hyb : y = (b : ℤ) := by omega
        have hxa : x.toNat ≠ a := by
          intro hxa
          exact h ⟨by omega, hyb⟩
        have hlen : y.toNat < img.length := (List.getElem?_eq_some.mp himg).1
        have hrow : img[b]? = some row := hb ▸ himg
        rw [if_pos hb, if_pos (hb ▸ hlen), hrow]
        simp only [Option.some_bind]
        rw [List.getElem?_set_ne hxa]
      · rw [if_neg hb]
  · rfl

/-- A pixel write at in-range coordinates stores the written color. -/
theorem getPixel_drawPixel_self (img : Image) (a b : ℕ) (c : RColor) (row : List RColor)
    (hrow : img[b]? = some row) (ha : a < row.length) :
    getPixel (drawPixel img (a : ℤ) (b : ℤ) c) a b = some c := by
  unfold drawPixel
  rw [if_pos ⟨Int.natCast_nonneg a, Int.natCast_nonneg b⟩]
  have htn : ((b : ℤ)).toNat = b := Int.toNat_natCast b
  have htx : ((a : ℤ)).toNat = a := Int.toNat_natCast a
  rw [htn, htx, hrow]
  dsimp only
  unfold getPixel
  have hlen : b < img.length := (List.getElem?_eq_some.mp hrow).1
  rw [List.getElem?_set, if_pos rfl, if_pos hlen]
  simp only [Option.some_bind]
  rw [List.getElem?_set, if_pos rfl, if_pos ha]

/-- Grid shape is preserved by a single pixel write. -/
theorem shapeOK_drawPixel (img : Image) (w h : ℕ) (x y : ℤ) (c : RColor)
    (hs : shapeOK img w h) : shapeOK (drawPixel img x y c) w h := by
  unfold drawPixel
  split
  · cases himg : img[y.toNat]? with
    | none => exact hs
    | some row =>
      dsimp only
      obtain ⟨hlen, hrows⟩ := hs
      constructor
      · rw [List.length_set]; exact hlen
      · intro r hr
        rcases List.mem_or_eq_of_mem_set hr with hmem | heq
        · exact hrows r hmem
        · subst heq
          rw [List.length_set]
          exact hrows row (List.getElem?_mem himg)
  · exact hs

/-- Grid shape is preserved by a guarded pixel write. -/
theorem shapeOK_drawIf (cond : Prop) [Decidable cond] (img : Image) (w h : ℕ)
    (x y : ℤ) (c : RColor) (hs : shapeOK img w h) :
    shapeOK (drawIf cond img x y c) w h := by
  unfold drawIf
  split
  · exact shapeOK_drawPixel img w h x y c hs
  · exact hs

/-- Grid shape is preserved by drawing one star. -/
theorem shapeOK_drawStar (W H w h : ℕ) (img : Image) (s : ℤ × ℤ × ℚ)
    (hs : shapeOK img w h) : shapeOK (drawStar W H img s) w h := by
  unfold drawStar
  dsimp only
  have h1 := shapeOK_drawPixel img w h s.1 s.2.1 (starColor s.2.2) hs
  split
  · exact shapeOK_drawIf _ _ w h _ _ _
      (shapeOK_drawIf _ _ w h _ _ _
        (shapeOK_drawIf _ _ w h _ _ _
          (shapeOK_drawIf _ _ w h _ _ _ h1)))
  · exact h1

/-- Grid shape is preserved by drawing a whole star list. -/
theorem shapeOK_foldl_drawStar (W H w h : ℕ) (stars : List (ℤ × ℤ × ℚ)) :
    ∀ img : Image, shapeOK img w h → shapeOK (stars.foldl (drawStar W H) img) w h := by
  induction stars with
  | nil => intro img hs; exact hs
  | cons s rest ih =>
    intro img hs
    exact ih _ (shapeOK_drawStar W H w h img s hs)

/-- A replicate grid has the replicate shape. -/
theorem shapeOK_genImageColor (w h : ℕ) (c : RColor) :
    shapeOK (genImageColor w h c) w h := by
  constructor
  · simp [genImageColor]
  · intro row hrow
    rw [List.eq_of_mem_replicate hrow]
    simp

/-- In a well-shaped grid, every in-range cell query returns a row of full width. -/
theorem shapeOK_row (img : Image) (w h b : ℕ) (hs : shapeOK img w h) (hb : b < h) :
    ∃ row, img[b]? = some row ∧ row.length = w := by
  obtain ⟨hlen, hrows⟩ := hs
  have hb2 : b < img.length := by omega
  refine ⟨img[b], List.getElem?_eq_some.mpr ⟨hb2, rfl⟩, ?_⟩
  exact hrows _ (List.getElem_mem hb2)

end Render

namespace Render

/-- A guarded pixel write either leaves a queried cell unchanged or stores the
written color there. -/
theorem getPixel_drawIf_cases (cond : Prop) [Decidable cond] (img : Image)
    (x y : ℤ) (c : RColor) (a b : ℕ) :
    getPixel (drawIf cond img x y c) a b = getPixel img a b ∨
    getPixel (drawIf cond img x y c) a b = some c := by
  unfold drawIf
  split
  · exact getPixel_drawPixel_cases img x y c a b
  · left; rfl

/-- A guarded pixel write at coordinates different from the queried cell
leaves that cell unchanged. -/
theorem getPixel_drawIf_ne (cond : Prop) [Decidable cond] (img : Image)
    (x y : ℤ) (c : RColor) (a b : ℕ) (h : ¬(x = (a : ℤ) ∧ y = (b : ℤ))) :
    getPixel (drawIf cond img x y c) a b = getPixel img a b := by
  unfold drawIf
  split
  · exact getPixel_drawPixel_ne img x y c a b h
  · rfl

/-- Drawing one star either leaves a queried cell unchanged, or stores the
star core color, or stores the star cross color. -/
theorem getPixel_drawStar_cases (W H : ℕ) (img : Image) (s : ℤ × ℤ × ℚ) (a b : ℕ) :
    getPixel (drawStar W H img s) a b = getPixel img a b ∨
    getPixel (drawStar W H img s) a b = some (starColor s.2.2) ∨
    getPixel (drawStar W H img s) a b = some (starCrossColor s.2.2) := by
  unfold drawStar
  dsimp only
  have hcore := getPixel_drawPixel_cases img s.1 s.2.1 (starColor s.2.2) a b
  split
  · set i1 := drawPixel img s.1 s.2.1 (starColor s.2.2) with hi1
    set i2 := drawIf (0 < s.1) i1 (s.1 - 1) s.2.1 (starCrossColor s.2.2) with hi2
    set i3 := drawIf (s.1 < (W : ℤ) - 1) i2 (s.1 + 1) s.2.1 (starCrossColor s.2.2) with hi3
    set i4 := drawIf (0 < s.2.1) i3 s.1 (s.2.1 - 1) (starCrossColor s.2.2) with hi4
    have e4 := getPixel_drawIf_cases (s.2.1 < (H : ℤ) - 1) i4 s.1 (s.2.1 + 1) (starCrossColor s.2.2) a b
    have e3 := getPixel_drawIf_cases (0 < s.2.1) i3 s.1 (s.2.1 - 1) (starCrossColor s.2.2) a b
    have e2 := getPixel_drawIf_cases (s.1 < (W : ℤ) - 1) i2 (s.1 + 1) s.2.1 (starCrossColor s.2.2) a b
    have e1 := getPixel_drawIf_cases (0 < s.1) i1 (s.1 - 1) s.2.1 (starCrossColor s.2.2) a b
    rcases e4 with e4 | e4
    · rw [e4]
      rcases e3 with e3 | e3
      · rw [e3]
        rcases e2 with e2 | e2
        · rw [e2]
          rcases e1 with e1 | e1
          · rw [e1]
            rcases hcore with hc | hc
            · left; exact hc
            · right; left; exact hc
          · right; right; exact e1
        · right; right; exact e2
      · right; right; exact e3
    · right; right; exact e4
  · rcases hcore with hc | hc
    · left; exact hc
    · right; left; exact hc

/-- Every star the LCG produces has brightness at least 0.3. -/
theorem starLoop_brightness (w h : ℕ) :
    ∀ (n seed : ℕ), ∀ s ∈ starLoop w h seed n, (0.3 : ℚ) ≤ s.2.2 := by
  intro n
  induction n with
  | zero => intro seed s hs; simp [starLoop] at hs
  | succ m ih =>
    intro seed s hs
    rw [starLoop] at hs
    rcases List.mem_cons.mp hs with heq | hmem
    · subst heq
      dsimp only
      have : (0 : ℚ) ≤ (((1103515245 * ((1103515245 * ((1103515245 * seed + 12345) % 2 ^ 31) + 12345) % 2 ^ 31) + 12345) % 2 ^ 31 % 70 : ℕ) : ℚ) / 100 := by
        positivity
      linarith
    · exact ih _ s hmem

/-- A star core pixel is never black: its red channel is at least 76. -/
theorem starColor_r_pos (br : ℚ) (h : (0.3 : ℚ) ≤ br) : (starColor br).r ≠ 0 := by
  unfold starColor rustAsU8
  have h1 : (76 : ℤ) ≤ ⌊255 * br⌋ := by
    rw [Int.le_floor]
    push_cast
    linarith
  dsimp only
  omega

/-- A star cross pixel is never black: its red channel is at least 38. -/
theorem starCrossColor_r_pos (br : ℚ) (h : (0.3 : ℚ) ≤ br) : (starCrossColor br).r ≠ 0 := by
  unfold starCrossColor rustAsU8
  have h1 : (38 : ℤ) ≤ ⌊255 * br * 0.5⌋ := by
    rw [Int.le_floor]
    push_cast
    linarith
  dsimp only
  omega

/-- Once a cell holds a color with nonzero red channel, drawing any list of
stars of brightness at least 0.3 keeps its red channel nonzero. -/
theorem foldl_drawStar_keeps_nonblack (W H : ℕ) :
    ∀ (stars : List (ℤ × ℤ × ℚ)), (∀ s ∈ stars, (0.3 : ℚ) ≤ s.2.2) →
    ∀ (a b : ℕ) (img : Image) (c0 : RColor), getPixel img a b = some c0 → c0.r ≠ 0 →
    ∃ c, getPixel (stars.foldl (drawStar W H) img) a b = some c ∧ c.r ≠ 0
  | [], _, a, b, img, c0, h0, hr => ⟨c0, h0, hr⟩
  | s :: rest, hbr, a, b, img, c0, h0, hr => by
    have hbs : (0.3 : ℚ) ≤ s.2.2 := hbr s (List.mem_cons_self s rest)
    have hrest : ∀ t ∈ rest, (0.3 : ℚ) ≤ t.2.2 := fun t ht => hbr t (List.mem_cons_of_mem s ht)
    rw [List.foldl_cons]
    rcases getPixel_drawStar_cases W H img s a b with hc | hc | hc
    · exact foldl_drawStar_keeps_nonblack W H rest hrest a b _ c0 (hc.trans h0) hr
    · exact foldl_drawStar_keeps_nonblack W H rest hrest a b _ _ hc (starColor_r_pos _ hbs)
    · exact foldl_drawStar_keeps_nonblack W H rest hrest a b _ _ hc (starCrossColor_r_pos _ hbs)

end Render

namespace Render

/-- C4: Framebuffer::point with x or y outside [0,width) × [0,height) leaves
the framebuffer (pixel buffer and every other field) unchanged, and for
in-range coordinates it writes exactly the pixel whose channels are the
input channels clamped to [0,1] and scaled to the 8-bit range. -/
theorem point_bounds (fb : Framebuffer) (x y : ℤ) (c : Vec3 ℚ) :
    (¬(0 ≤ x ∧ 0 ≤ y ∧ x < (fb.width : ℤ) ∧ y < (fb.height : ℤ)) →
      fb.point x y c = fb) ∧
    ((0 ≤ x ∧ 0 ≤ y ∧ x < (fb.width : ℤ) ∧ y < (fb.height : ℤ)) →
      fb.point x y c = { fb with image := (drawPixel fb.image x y
        ⟨rustAsU8 (rclamp c.x 0 1 * 255),
         rustAsU8 (rclamp c.y 0 1 * 255),
         rustAsU8 (rclamp c.z 0 1 * 255), 255⟩) }) := by
  constructor
  · intro h
    unfold Framebuffer.point
    rw [if_neg h]
  · intro h
    unfold Framebuffer.point
    rw [if_pos h]

/-- C4 witness: on a concrete 3 × 2 framebuffer, the out-of-range write at
(-1, 0) is a no-op and the in-range write at (1, 1) stores the clamped pixel. -/
theorem point_bounds_witness :
    fbSmall.point (-1) 0 ⟨2, 0, 0⟩ = fbSmall ∧
    fbSmall.point 1 1 ⟨2, 0, 0⟩ = { fbSmall with image := (drawPixel fbSmall.image 1 1
      ⟨rustAsU8 (rclamp 2 0 1 * 255),
       rustAsU8 (rclamp 0 0 1 * 255),
       rustAsU8 (rclamp 0 0 1 * 255), 255⟩) } :=
  ⟨(point_bounds fbSmall (-1) 0 ⟨2, 0, 0⟩).1 (by decide),
   (point_bounds fbSmall 1 1 ⟨2, 0, 0⟩).2 (by decide)⟩

end Render

namespace Render

/-- Unfolding one iteration of the star-generation loop. -/
theorem starLoop_succ (w h seed n : ℕ) :
    starLoop w h seed (n + 1) =
      (((((1103515245 * seed + 12345) % 2 ^ 31) % w : ℕ) : ℤ),
       ((((1103515245 * ((1103515245 * seed + 12345) % 2 ^ 31) + 12345) % 2 ^ 31) % h : ℕ) : ℤ),
       (0.3 : ℚ) + (((1103515245 * ((1103515245 * ((1103515245 * seed + 12345) % 2 ^ 31) + 12345) % 2 ^ 31) + 12345) % 2 ^ 31) % 70 : ℕ) / 100) ::
      starLoop w h ((1103515245 * ((1103515245 * ((1103515245 * seed + 12345) % 2 ^ 31) + 12345) % 2 ^ 31) + 12345) % 2 ^ 31) n := rfl

/-- The first star of the 10 × 10 star field sits at (6, 5) with brightness
0.3 + 24/100 = 0.54. -/
theorem generate_stars_10_head :
    generate_stars 10 10 =
      ((6 : ℤ), (5 : ℤ), (0.3 + 24 / 100 : ℚ)) :: starLoop 10 10 1449466924 799 := by
  unfold generate_stars
  rw [show (800 : ℕ) = 799 + 1 from rfl, starLoop_succ]
  simp only [List.cons.injEq, Prod.mk.injEq]
  norm_num

/-- Framebuffer::clear rebuilds the image from the size, background color and
star field alone; the incoming image content is discarded. -/
theorem clear_image (fb : Framebuffer) :
    fb.clear.image = fb.star_field.foldl (drawStar fb.width fb.height)
      (genImageColor fb.width fb.height
        ⟨rustAsU8 (fb.background_color.x * 255),
         rustAsU8 (fb.background_color.y * 255),
         rustAsU8 (fb.background_color.z * 255), 255⟩) := rfl

/-- Framebuffer::point only replaces the image; in range it writes the
clamped pixel. -/
theorem point_image (fb : Framebuffer) (x y : ℤ) (c : Vec3 ℚ)
    (h : 0 ≤ x ∧ 0 ≤ y ∧ x < (fb.width : ℤ) ∧ y < (fb.height : ℤ)) :
    (fb.point x y c).image = drawPixel fb.image x y
      ⟨rustAsU8 (rclamp c.x 0 1 * 255),
       rustAsU8 (rclamp c.y 0 1 * 255),
       rustAsU8 (rclamp c.z 0 1 * 255), 255⟩ := by
  unfold Framebuffer.point
  rw [if_pos h]

/-- Clearing after a point write gives the same framebuffer as clearing
without it: clear depends only on fields that point never changes. -/
theorem clear_after_point (fb : Framebuffer) (x y : ℤ) (c : Vec3 ℚ) :
    (fb.point x y c).clear = fb.clear := by
  unfold Framebuffer.point
  split
  · rfl
  · rfl

/-- The cleared image has the framebuffer's full width × height shape. -/
theorem clear_shape (fb : Framebuffer) : shapeOK fb.clear.image fb.width fb.height := by
  rw [clear_image]
  exact shapeOK_foldl_drawStar fb.width fb.height fb.width fb.height fb.star_field _
    (shapeOK_genImageColor fb.width fb.height _)

end Render

namespace Render

/-- Clearing an already-cleared framebuffer changes nothing: clear depends
only on the size, background color and star field. -/
theorem clear_clear (fb : Framebuffer) : fb.clear.clear = fb.clear := rfl

/-- C2: counterexample. On the 10 × 10 framebuffer with background (0,0,0),
after clear() followed by point(5,5,(1,0,0)) the pixel (6,5) — the core of
the first star of the precomputed star field, which clear() always draws —
is not black, refuting "every pixel is black except (5,5)". -/
theorem clear_scenario_cex :
    getPixel (((Framebuffer.new 10 10).clear.point 5 5 ⟨1, 0, 0⟩).image) 6 5 ≠
      some ⟨0, 0, 0, 255⟩ := by
  have hpt := point_image ((Framebuffer.new 10 10).clear) 5 5 ⟨1, 0, 0⟩
    (by refine ⟨by norm_num, by norm_num, ?_, ?_⟩ <;> decide)
  rw [hpt, getPixel_drawPixel_ne _ _ _ _ _ _ (by decide)]
  have key : ∃ c, getPixel ((Framebuffer.new 10 10).clear.image) 6 5 = some c ∧ c.r ≠ 0 := by
    rw [clear_image]
    dsimp only [Framebuffer.new]
    rw [generate_stars_10_head, List.foldl_cons]
    refine foldl_drawStar_keeps_nonblack 10 10 _ (starLoop_brightness 10 10 799 1449466924)
      6 5 _ (starColor (0.3 + 24 / 100)) ?_ (starColor_r_pos _ (by norm_num))
    unfold drawStar
    dsimp only
    rw [if_neg (by norm_num)]
    have hrow : (genImageColor 10 10
        ⟨rustAsU8 (0 * 255), rustAsU8 (0 * 255), rustAsU8 (0 * 255), 255⟩)[5]? =
        some (List.replicate 10 ⟨rustAsU8 (0 * 255), rustAsU8 (0 * 255), rustAsU8 (0 * 255), 255⟩) := by
      simp [genImageColor]
    exact getPixel_drawPixel_self _ 6 5 _ _ hrow (by simp)
  obtain ⟨c, hc, hr⟩ := key
  rw [hc]
  intro heq
  exact hr (congrArg RColor.r (Option.some.inj heq))

/-- C2 (amended): on the 10 × 10 framebuffer with background (0,0,0), after
clear() followed by point(5,5,(1,0,0)) the pixel (5,5) is pure red
(255,0,0,255), and calling clear() again restores exactly the post-clear
framebuffer — the background overdrawn with the precomputed star field,
which is not all black. -/
theorem clear_point_scenario :
    getPixel (((Framebuffer.new 10 10).clear.point 5 5 ⟨1, 0, 0⟩).image) 5 5 =
      some ⟨255, 0, 0, 255⟩ ∧
    ((Framebuffer.new 10 10).clear.point 5 5 ⟨1, 0, 0⟩).clear =
      (Framebuffer.new 10 10).clear := by
  constructor
  · have hpt := point_image ((Framebuffer.new 10 10).clear) 5 5 ⟨1, 0, 0⟩
      (by refine ⟨by norm_num, by norm_num, ?_, ?_⟩ <;> decide)
    rw [hpt]
    dsimp only
    have hsh := clear_shape (Framebuffer.new 10 10)
    obtain ⟨row, hrow, hlen⟩ := shapeOK_row _ _ _ 5 hsh (by decide)
    have h5 : 5 < row.length := by rw [hlen]; decide
    have hwrite := getPixel_drawPixel_self ((Framebuffer.new 10 10).clear.image) 5 5
      ⟨rustAsU8 (rclamp 1 0 1 * 255), rustAsU8 (rclamp 0 0 1 * 255),
       rustAsU8 (rclamp 0 0 1 * 255), 255⟩ row hrow h5
    have h255 : rustAsU8 (rclamp 1 0 1 * 255) = 255 := by
      unfold rustAsU8 rclamp
      have hf : ⌊min (max (1 : ℚ) 0) 1 * 255⌋ = 255 := by norm_num
      rw [hf]
      decide
    have h0 : rustAsU8 (rclamp 0 0 1 * 255) = 0 := by
      unfold rustAsU8 rclamp
      have hf : ⌊min (max (0 : ℚ) 0) 1 * 255⌋ = 0 := by norm_num
      rw [hf]
      decide
    rw [h255, h0] at hwrite ⊢
    exact hwrite
  · rw [clear_after_point, clear_clear]

end Render

namespace Render

/-- Membership in the inclusive integer range is exactly the pair of bounds. -/
theorem intRangeIncl_mem_iff {a lo hi : ℤ} : a ∈ intRangeIncl lo hi ↔ lo ≤ a ∧ a ≤ hi := by
  unfold intRangeIncl
  simp only [List.mem_map, List.mem_range]
  constructor
  · rintro ⟨i, hlt, rfl⟩
    omega
  · rintro ⟨h1, h2⟩
    exact ⟨(a - lo).toNat, by omega, by omega⟩

/-- C3 (amended): every fragment emitted by the rasterizer has integer
screen coordinates lying within the triangle's integer bounding box
(floor of the coordinate minima to ceil of the maxima); this holds for every
triangle, but a positive-area triangle may emit no fragment at all
(see the counterexample), so "at least one fragment" is dropped. -/
theorem triangle_fragments_in_bbox (v1 v2 v3 : Vertex ℚ) (f : Frag ℚ)
    (hf : f ∈ triangleRast v1 v2 v3) :
    ∃ a b : ℤ,
      f.position = ⟨(a : ℚ), (b : ℚ)⟩ ∧
      ⌊min (min v1.transformed_position.x v2.transformed_position.x) v3.transformed_position.x⌋ ≤ a ∧
      a ≤ ⌈max (max v1.transformed_position.x v2.transformed_position.x) v3.transformed_position.x⌉ ∧
      ⌊min (min v1.transformed_position.y v2.transformed_position.y) v3.transformed_position.y⌋ ≤ b ∧
      b ≤ ⌈max (max v1.transformed_position.y v2.transformed_position.y) v3.transformed_position.y⌉ := by
  unfold triangleRast at hf
  simp only [List.mem_flatMap, List.mem_filterMap] at hf
  obtain ⟨y, hy, x, hx, hopt⟩ := hf
  have hyb := intRangeIncl_mem_iff.mp hy
  have hxb := intRangeIncl_mem_iff.mp hx
  refine ⟨x, y, ?_, hxb.1, hxb.2, hyb.1, hyb.2⟩
  split at hopt
  · rw [← Option.some.inj hopt]
  · exact absurd hopt (by simp)

end Render

namespace Render

/-- C3: counterexample. The triangle (0.2,0.2), (0.8,0.2), (0.5,0.8) has
positive area (0.18) but the rasterizer emits no fragment: no integer point
of its bounding box passes the edge-sign test. -/
theorem triangle_positive_area_no_fragment_cex :
    0 < triangleArea (mkTV ⟨0.2, 0.2, 0⟩) (mkTV ⟨0.8, 0.2, 0⟩) (mkTV ⟨0.5, 0.8, 0⟩) ∧
    triangleRast (mkTV ⟨0.2, 0.2, 0⟩) (mkTV ⟨0.8, 0.2, 0⟩) (mkTV ⟨0.5, 0.8, 0⟩) = [] := by
  constructor
  · unfold triangleArea sign mkTV
    dsimp only
    rw [show ((0.2 : ℚ) - 0.5) * (0.2 - 0.8) - (0.8 - 0.5) * (0.2 - 0.8) = 0.36 by norm_num]
    rw [abs_of_pos (by norm_num)]
    norm_num
  · unfold triangleRast mkTV
    dsimp only
    rw [show ⌊min (min (0.2 : ℚ) 0.8) 0.5⌋ = 0 by norm_num,
        show ⌈max (max (0.2 : ℚ) 0.8) 0.5⌉ = 1 by norm_num [Int.ceil_eq_iff],
        show ⌊min (min (0.2 : ℚ) 0.2) 0.8⌋ = 0 by norm_num,
        show ⌈max (max (0.2 : ℚ) 0.2) 0.8⌉ = 1 by norm_num [Int.ceil_eq_iff],
        show intRangeIncl 0 1 = [0, 1] from rfl]
    simp only [List.flatMap_cons, List.flatMap_nil, List.filterMap_cons, List.filterMap_nil]
    norm_num [sign]

end Render

namespace Render

/-- C3 witness: the right triangle (0,0), (1,0), (0,1) emits the fragment at
(0,0), and the theorem places it inside the integer bounding box. -/
theorem triangle_fragments_in_bbox_witness :
    ∃ a b : ℤ,
      (⟨⟨0, 0⟩, ⟨1, 1, 1⟩, 0⟩ : Frag ℚ).position = ⟨(a : ℚ), (b : ℚ)⟩ ∧
      ⌊min (min (mkTV ⟨0, 0, 0⟩).transformed_position.x
          (mkTV ⟨1, 0, 0⟩).transformed_position.x) (mkTV ⟨0, 1, 0⟩).transformed_position.x⌋ ≤ a ∧
      a ≤ ⌈max (max (mkTV ⟨0, 0, 0⟩).transformed_position.x
          (mkTV ⟨1, 0, 0⟩).transformed_position.x) (mkTV ⟨0, 1, 0⟩).transformed_position.x⌉ ∧
      ⌊min (min (mkTV ⟨0, 0, 0⟩).transformed_position.y
          (mkTV ⟨1, 0, 0⟩).transformed_position.y) (mkTV ⟨0, 1, 0⟩).transformed_position.y⌋ ≤ b ∧
      b ≤ ⌈max (max (mkTV ⟨0, 0, 0⟩).transformed_position.y
          (mkTV ⟨1, 0, 0⟩).transformed_position.y) (mkTV ⟨0, 1, 0⟩).transformed_position.y⌉ := by
  apply triangle_fragments_in_bbox (mkTV ⟨0, 0, 0⟩) (mkTV ⟨1, 0, 0⟩) (mkTV ⟨0, 1, 0⟩)
  unfold triangleRast mkTV
  dsimp only
  simp only [List.mem_flatMap, List.mem_filterMap]
  refine ⟨0, ?_, 0, ?_, ?_⟩
  · exact intRangeIncl_mem_iff.mpr ⟨by norm_num, by norm_num [Int.ceil_eq_iff]⟩
  · exact intRangeIncl_mem_iff.mpr ⟨by norm_num, by norm_num [Int.ceil_eq_iff]⟩
  · rw [if_pos (by norm_num [sign])]
    norm_num [sign]

end Render

namespace Render

/-- A min fold never exceeds its seed. -/
theorem foldl_min_le_init (g : ℕ → ℚ) :
    ∀ (l : List ℕ) (init : ℚ), l.foldl (fun m x => min m (g x)) init ≤ init
  | [], _ => le_refl _
  | a :: t, init =>
    le_trans (foldl_min_le_init g t (min init (g a))) (min_le_left _ _)

/-- A min fold is at most each folded element. -/
theorem foldl_min_le (g : ℕ → ℚ) :
    ∀ (l : List ℕ) (init : ℚ) (b : ℕ), b ∈ l →
      l.foldl (fun m x => min m (g x)) init ≤ g b
  | [], _, b, hb => absurd hb (List.not_mem_nil b)
  | a :: t, init, b, hb => by
    rcases List.mem_cons.mp hb with rfl | hmem
    · exact le_trans (foldl_min_le_init g t (min init (g b))) (min_le_right _ _)
    · exact foldl_min_le g t (min init (g a)) b hmem

/-- A max fold is at least its seed. -/
theorem le_foldl_max_init (g : ℕ → ℚ) :
    ∀ (l : List ℕ) (init : ℚ), init ≤ l.foldl (fun m x => max m (g x)) init
  | [], _ => le_refl _
  | a :: t, init =>
    le_trans (le_max_left _ _) (le_foldl_max_init g t (max init (g a)))

/-- A max fold is at least each folded element. -/
theorem le_foldl_max (g : ℕ → ℚ) :
    ∀ (l : List ℕ) (init : ℚ) (b : ℕ), b ∈ l →
      g b ≤ l.foldl (fun m x => max m (g x)) init
  | [], _, b, hb => absurd hb (List.not_mem_nil b)
  | a :: t, init, b, hb => by
    rcases List.mem_cons.mp hb with rfl | hmem
    · exact le_trans (le_max_right _ _) (le_foldl_max_init g t (max init (g b)))
    · exact le_foldl_max g t (max init (g a)) b hmem

/-- axisMin is a lower bound for every vertex coordinate on its axis. -/
theorem axisMin_le (positions : List ℚ) (k i : ℕ) (hi : i < positions.length / 3) :
    axisMin positions k ≤ posAt positions i k :=
  foldl_min_le (fun j => posAt positions j k) _ f32MAX i (List.mem_range.mpr hi)

/-- axisMax is an upper bound for every vertex coordinate on its axis. -/
theorem le_axisMax (positions : List ℚ) (k i : ℕ) (hi : i < positions.length / 3) :
    posAt positions i k ≤ axisMax positions k :=
  le_foldl_max (fun j => posAt positions j k) _ (-f32MAX) i (List.mem_range.mpr hi)

/-- Centering then scaling by 2/msize keeps a coordinate of the box within
the unit interval. -/
theorem scaled_in_unit (x mn mx msize : ℚ) (hmn : mn ≤ x) (hmx : x ≤ mx)
    (hsz : mx - mn ≤ msize) (hpos : 0 < msize) :
    |(x - (mn + mx) / 2) * (2 / msize)| ≤ 1 := by
  have hne : msize ≠ 0 := ne_of_gt hpos
  have hid : msize / 2 * (2 / msize) = 1 := by field_simp
  have hrange1 : x - (mn + mx) / 2 ≤ msize / 2 := by linarith
  have hrange2 : -(msize / 2) ≤ x - (mn + mx) / 2 := by linarith
  have hpos2 : (0 : ℚ) ≤ 2 / msize := by positivity
  rw [abs_le]
  constructor
  · have h := mul_le_mul_of_nonneg_right hrange2 hpos2
    rw [neg_mul, hid] at h
    exact h
  · have h := mul_le_mul_of_nonneg_right hrange1 hpos2
    rw [hid] at h
    exact h

end Render

namespace Render

/-- C7: geometry normalization at load time — translate by the bounding-box
center, scale uniformly by 2/max(size_x,size_y,size_z), flip Y — leaves every
normalized vertex position inside the [-1,1] cube. -/
theorem objNormalize_in_cube (positions : List ℚ) (p : Vec3 ℚ)
    (hp : p ∈ objNormalize positions) :
    |p.x| ≤ 1 ∧ |p.y| ≤ 1 ∧ |p.z| ≤ 1 := by
  unfold objNormalize at hp
  simp only [List.mem_map, List.mem_range] at hp
  obtain ⟨i, hi, rfl⟩ := hp
  dsimp only
  have hx1 := axisMin_le positions 0 i hi
  have hx2 := le_axisMax positions 0 i hi
  have hy1 := axisMin_le positions 1 i hi
  have hy2 := le_axisMax positions 1 i hi
  have hz1 := axisMin_le positions 2 i hi
  have hz2 := le_axisMax positions 2 i hi
  set sx := axisMax positions 0 - axisMin positions 0 with hsx
  set sy := axisMax positions 1 - axisMin positions 1 with hsy
  set sz := axisMax positions 2 - axisMin positions 2 with hsz
  have hmx : sx ≤ max (max sx sy) sz := le_trans (le_max_left _ _) (le_max_left _ _)
  have hmy : sy ≤ max (max sx sy) sz := le_trans (le_max_right _ _) (le_max_left _ _)
  have hmz : sz ≤ max (max sx sy) sz := le_max_right _ _
  by_cases hms : max (max sx sy) sz > 0
  · rw [if_pos hms]
    refine ⟨?_, ?_, ?_⟩
    · exact scaled_in_unit _ _ _ _ hx1 hx2 (by rw [← hsx]; exact hmx) hms
    · rw [neg_mul, abs_neg]
      exact scaled_in_unit _ _ _ _ hy1 hy2 (by rw [← hsy]; exact hmy) hms
    · exact scaled_in_unit _ _ _ _ hz1 hz2 (by rw [← hsz]; exact hmz) hms
  · rw [if_neg hms]
    push_neg at hms
    have hsx0 : sx ≤ 0 := le_trans hmx hms
    have hsy0 : sy ≤ 0 := le_trans hmy hms
    have hsz0 : sz ≤ 0 := le_trans hmz hms
    rw [hsx] at hsx0
    rw [hsy] at hsy0
    rw [hsz] at hsz0
    refine ⟨?_, ?_, ?_⟩
    · rw [mul_one, abs_le]; constructor <;> linarith
    · rw [mul_one, abs_le]; constructor <;> linarith
    · rw [mul_one, abs_le]; constructor <;> linarith

end Render

namespace Render

/-- C7 witness: normalizing the two-vertex model with flat positions
[0,0,0, 4,0,0] puts its first vertex at (-1, 0, 0), inside the unit cube. -/
theorem objNormalize_in_cube_witness :
    |(⟨-1, 0, 0⟩ : Vec3 ℚ).x| ≤ 1 ∧ |(⟨-1, 0, 0⟩ : Vec3 ℚ).y| ≤ 1 ∧
    |(⟨-1, 0, 0⟩ : Vec3 ℚ).z| ≤ 1 := by
  apply objNormalize_in_cube [0, 0, 0, 4, 0, 0]
  have ha0 : axisMin [0, 0, 0, 4, 0, 0] 0 = 0 := by
    unfold axisMin
    rw [show (([0, 0, 0, 4, 0, 0] : List ℚ).length / 3) = 2 from rfl,
        show List.range 2 = [0, 1] from rfl]
    simp only [List.foldl_cons, List.foldl_nil]
    rw [show posAt [0, 0, 0, 4, 0, 0] 0 0 = 0 from rfl,
        show posAt [0, 0, 0, 4, 0, 0] 1 0 = 4 from rfl]
    norm_num [f32MAX]
  have hb0 : axisMax [0, 0, 0, 4, 0, 0] 0 = 4 := by
    unfold axisMax
    rw [show (([0, 0, 0, 4, 0, 0] : List ℚ).length / 3) = 2 from rfl,
        show List.range 2 = [0, 1] from rfl]
    simp only [List.foldl_cons, List.foldl_nil]
    rw [show posAt [0, 0, 0, 4, 0, 0] 0 0 = 0 from rfl,
        show posAt [0, 0, 0, 4, 0, 0] 1 0 = 4 from rfl]
    norm_num [f32MAX]
  have ha1 : axisMin [0, 0, 0, 4, 0, 0] 1 = 0 := by
    unfold axisMin
    rw [show (([0, 0, 0, 4, 0, 0] : List ℚ).length / 3) = 2 from rfl,
        show List.range 2 = [0, 1] from rfl]
    simp only [List.foldl_cons, List.foldl_nil]
    rw [show posAt [0, 0, 0, 4, 0, 0] 0 1 = 0 from rfl,
        show posAt [0, 0, 0, 4, 0, 0] 1 1 = 0 from rfl]
    norm_num [f32MAX]
  have hb1 : axisMax [0, 0, 0, 4, 0, 0] 1 = 0 := by
    unfold axisMax
    rw [show (([0, 0, 0, 4, 0, 0] : List ℚ).length / 3) = 2 from rfl,
        show List.range 2 = [0, 1] from rfl]
    simp only [List.foldl_cons, List.foldl_nil]
    rw [show posAt [0, 0, 0, 4, 0, 0] 0 1 = 0 from rfl,
        show posAt [0, 0, 0, 4, 0, 0] 1 1 = 0 from rfl]
    norm_num [f32MAX]
  have ha2 : axisMin [0, 0, 0, 4, 0, 0] 2 = 0 := by
    unfold axisMin
    rw [show (([0, 0, 0, 4, 0, 0] : List ℚ).length / 3) = 2 from rfl,
        show List.range 2 = [0, 1] from rfl]
    simp only [List.foldl_cons, List.foldl_nil]
    rw [show posAt [0, 0, 0, 4, 0, 0] 0 2 = 0 from rfl,
        show posAt [0, 0, 0, 4, 0, 0] 1 2 = 0 from rfl]
    norm_num [f32MAX]
  have hb2 : axisMax [0, 0, 0, 4, 0, 0] 2 = 0 := by
    unfold axisMax
    rw [show (([0, 0, 0, 4, 0, 0] : List ℚ).length / 3) = 2 from rfl,
        show List.range 2 = [0, 1] from rfl]
    simp only [List.foldl_cons, List.foldl_nil]
    rw [show posAt [0, 0, 0, 4, 0, 0] 0 2 = 0 from rfl,
        show posAt [0, 0, 0, 4, 0, 0] 1 2 = 0 from rfl]
    norm_num [f32MAX]
  unfold objNormalize
  rw [ha0, hb0, ha1, hb1, ha2, hb2]
  dsimp only
  rw [if_pos (by norm_num : max (max ((4 : ℚ) - 0) (0 - 0)) (0 - 0) > 0)]
  rw [show (([0, 0, 0, 4, 0, 0] : List ℚ).length / 3) = 2 from rfl,
      show List.range 2 = [0, 1] from rfl]
  simp only [List.map_cons, List.map_nil]
  refine List.mem_cons.mpr (Or.inl ?_)
  rw [show posAt [0, 0, 0, 4, 0, 0] 0 0 = 0 from rfl,
      show posAt [0, 0, 0, 4, 0, 0] 0 1 = 0 from rfl,
      show posAt [0, 0, 0, 4, 0, 0] 0 2 = 0 from rfl]
  simp only [Vec3.mk.injEq]
  norm_num

end Render

namespace Render

/-- The hash output is a fractional part: it lies in [0, 1]. -/
theorem hash_mem (x : ℝ) : 0 ≤ hash x ∧ hash x ≤ 1 := by
  unfold hash
  dsimp only
  constructor
  · linarith [Int.floor_le (Real.sin (x * 43758.5453))]
  · linarith [Int.lt_floor_add_one (Real.sin (x * 43758.5453))]

/-- The cubic smoothing weight t²(3 - 2t) stays in [0, 1] for t in [0, 1]. -/
theorem cubic_mem (t : ℝ) (h0 : 0 ≤ t) (h1 : t ≤ 1) :
    0 ≤ t * t * (3 - 2 * t) ∧ t * t * (3 - 2 * t) ≤ 1 := by
  constructor
  · have : 0 ≤ 3 - 2 * t := by linarith
    positivity
  · nlinarith [mul_nonneg (mul_nonneg (sub_nonneg.mpr h1) (sub_nonneg.mpr h1))
      (by linarith : (0 : ℝ) ≤ 1 + 2 * t)]

/-- The value noise output is a convex blend of corner hashes: it lies in
[0, 1]. -/
theorem noise_mem (p : Vec2 ℝ) : 0 ≤ noise p ∧ noise p ≤ 1 := by
  unfold noise
  dsimp only
  obtain ⟨ha0, ha1⟩ := hash_mem ((⌊p.x⌋ : ℝ) + (⌊p.y⌋ : ℝ) * 57)
  obtain ⟨hb0, hb1⟩ := hash_mem ((⌊p.x⌋ : ℝ) + 1 + (⌊p.y⌋ : ℝ) * 57)
  obtain ⟨hc0, hc1⟩ := hash_mem ((⌊p.x⌋ : ℝ) + ((⌊p.y⌋ : ℝ) + 1) * 57)
  obtain ⟨hd0, hd1⟩ := hash_mem ((⌊p.x⌋ : ℝ) + 1 + ((⌊p.y⌋ : ℝ) + 1) * 57)
  have hfx0 : 0 ≤ p.x - (⌊p.x⌋ : ℝ) := by linarith [Int.floor_le p.x]
  have hfx1 : p.x - (⌊p.x⌋ : ℝ) ≤ 1 := by linarith [Int.lt_floor_add_one p.x]
  have hfy0 : 0 ≤ p.y - (⌊p.y⌋ : ℝ) := by linarith [Int.floor_le p.y]
  have hfy1 : p.y - (⌊p.y⌋ : ℝ) ≤ 1 := by linarith [Int.lt_floor_add_one p.y]
  obtain ⟨hu0, hu1⟩ := cubic_mem _ hfx0 hfx1
  obtain ⟨hv0, hv1⟩ := cubic_mem _ hfy0 hfy1
  set a := hash ((⌊p.x⌋ : ℝ) + (⌊p.y⌋ : ℝ) * 57)
  set b := hash ((⌊p.x⌋ : ℝ) + 1 + (⌊p.y⌋ : ℝ) * 57)
  set c := hash ((⌊p.x⌋ : ℝ) + ((⌊p.y⌋ : ℝ) + 1) * 57)
  set d := hash ((⌊p.x⌋ : ℝ) + 1 + ((⌊p.y⌋ : ℝ) + 1) * 57)
  set u := (p.x - (⌊p.x⌋ : ℝ)) * (p.x - (⌊p.x⌋ : ℝ)) * (3 - 2 * (p.x - (⌊p.x⌋ : ℝ)))
  set v := (p.y - (⌊p.y⌋ : ℝ)) * (p.y - (⌊p.y⌋ : ℝ)) * (3 - 2 * (p.y - (⌊p.y⌋ : ℝ)))
  have hw1 : 0 ≤ (1 - u) * (1 - v) := mul_nonneg (by linarith) (by linarith)
  have hw2 : 0 ≤ u * (1 - v) := mul_nonneg (by linarith) (by linarith)
  have hw3 : 0 ≤ (1 - u) * v := mul_nonneg (by linarith) (by linarith)
  have hw4 : 0 ≤ u * v := mul_nonneg (by linarith) (by linarith)
  constructor
  · have t1 : 0 ≤ a * (1 - u) * (1 - v) := by
      rw [mul_assoc]
      exact mul_nonneg ha0 hw1
    have t2 : 0 ≤ b * u * (1 - v) := by
      rw [mul_assoc]
      exact mul_nonneg hb0 hw2
    have t3 : 0 ≤ c * (1 - u) * v := by
      rw [mul_assoc]
      exact mul_nonneg hc0 hw3
    have t4 : 0 ≤ d * u * v := by
      rw [mul_assoc]
      exact mul_nonneg hd0 hw4
    linarith
  · have key : 1 - (a * (1 - u) * (1 - v) + b * u * (1 - v) + c * (1 - u) * v + d * u * v) =
        (1 - a) * ((1 - u) * (1 - v)) + (1 - b) * (u * (1 - v)) +
        (1 - c) * ((1 - u) * v) + (1 - d) * (u * v) := by ring
    have t1 : 0 ≤ (1 - a) * ((1 - u) * (1 - v)) := mul_nonneg (by linarith) hw1
    have t2 : 0 ≤ (1 - b) * (u * (1 - v)) := mul_nonneg (by linarith) hw2
    have t3 : 0 ≤ (1 - c) * ((1 - u) * v) := mul_nonneg (by linarith) hw3
    have t4 : 0 ≤ (1 - d) * (u * v) := mul_nonneg (by linarith) hw4
    linarith

/-- Invariants of the fbm loop state after n iterations: amplitude stays
positive, the accumulated value is nonnegative and bounded by the accumulated
amplitude sum, and after at least one iteration that sum is at least 0.5. -/
theorem fbmIter_facts (p : Vec2 ℝ) : ∀ n : ℕ,
    0 < (fbmIter p n).2.1 ∧ 0 ≤ (fbmIter p n).1 ∧
    (fbmIter p n).1 ≤ (fbmIter p n).2.2.2 ∧
    (1 ≤ n → 0.5 ≤ (fbmIter p n).2.2.2)
  | 0 => by
    unfold fbmIter
    norm_num
  | n + 1 => by
    obtain ⟨hamp, hval, hvm, hmv⟩ := fbmIter_facts p n
    obtain ⟨hn0, hn1⟩ := noise_mem (v2smul p (fbmIter p n).2.2.1)
    unfold fbmIter
    dsimp only
    refine ⟨by positivity, by positivity, ?_, ?_⟩
    · have : (fbmIter p n).2.1 * noise (v2smul p (fbmIter p n).2.2.1) ≤ (fbmIter p n).2.1 := by
        nlinarith
      linarith
    · intro _
      match n, hmv with
      | 0, _ =>
        unfold fbmIter
        norm_num
      | m + 1, hmv =>
        have h5 := hmv (by omega)
        have : 0 ≤ (fbmIter p (m + 1)).2.1 * noise (v2smul p (fbmIter p (m + 1)).2.2.1) := by
          have h1 := (fbmIter_facts p (m + 1)).1
          positivity
      
        linarith [(fbmIter_facts p (m + 1)).1]

/-- C8: fbm is deterministic — equal inputs give equal outputs — and for
octaves ≥ 1 its output, the amplitude-weighted noise sum normalized by the
amplitude total, lies within [0, 1]. -/
theorem fbm_deterministic_bounded (p : Vec2 ℝ) (octaves : ℤ) (hoct : 1 ≤ octaves) :
    (∀ (q : Vec2 ℝ) (m : ℤ), q = p → m = octaves → fbm q m = fbm p octaves) ∧
    0 ≤ fbm p octaves ∧ fbm p octaves ≤ 1 := by
  obtain ⟨hamp, hval, hvm, hmv⟩ := fbmIter_facts p octaves.toNat
  have hpos : (0.5 : ℝ) ≤ (fbmIter p octaves.toNat).2.2.2 := hmv (by omega)
  refine ⟨fun q m hq hm => by rw [hq, hm], ?_, ?_⟩
  · unfold fbm
    dsimp only
    positivity
  · unfold fbm
    dsimp only
    rw [div_le_one (by linarith)]
    exact hvm

/-- C8 witness: at p = (0,0) with one octave the output is within [0, 1]. -/
theorem fbm_deterministic_bounded_witness :
    0 ≤ fbm ⟨0, 0⟩ 1 ∧ fbm ⟨0, 0⟩ 1 ≤ 1 :=
  (fbm_deterministic_bounded ⟨0, 0⟩ 1 (by decide)).2

/-- C10: for octaves ≤ 0 the fbm loop body never runs, so both the
accumulated value and the normalizing amplitude sum are zero and fbm computes
the unguarded quotient 0/0 (NaN in the f32 source; zero in this exact
embedding, where division is total). -/
theorem fbm_nonpositive_octaves (p : Vec2 ℝ) (octaves : ℤ) (hoct : octaves ≤ 0) :
    (fbmIter p octaves.toNat).1 = 0 ∧ (fbmIter p octaves.toNat).2.2.2 = 0 ∧
    fbm p octaves = (0 : ℝ) / 0 := by
  have h0 : octaves.toNat = 0 := Int.toNat_of_nonpos hoct
  rw [h0]
  refine ⟨rfl, rfl, ?_⟩
  unfold fbm
  rw [h0]
  rfl

/-- C10 witness: at octaves = 0 the loop state is (0, …, 0) and fbm is the
quotient 0/0. -/
theorem fbm_nonpositive_octaves_witness :
    (fbmIter ⟨0, 0⟩ ((0 : ℤ)).toNat).1 = 0 ∧ (fbmIter ⟨0, 0⟩ ((0 : ℤ)).toNat).2.2.2 = 0 ∧
    fbm ⟨0, 0⟩ 0 = (0 : ℝ) / 0 :=
  fbm_nonpositive_octaves ⟨0, 0⟩ 0 (by decide)

end Render

namespace Render

/-- C5: every spherical-body shader (planet_type 0, 1, 2, 3, 5, 6, 7) guards
its spherical-UV derivation: when the transformed surface position has length
below 0.001 it returns neutral black (0,0,0) by the early-return guard
instead of dividing by the near-zero length. -/
theorem planet_shader_guard (f : Frag ℝ) (v : Vertex ℝ) (t : ℝ) (pt : ℕ)
    (hpt : pt = 0 ∨ pt = 1 ∨ pt = 2 ∨ pt = 3 ∨ pt = 5 ∨ pt = 6 ∨ pt = 7)
    (hlen : Real.sqrt (v.transformed_position.x * v.transformed_position.x +
      v.transformed_position.y * v.transformed_position.y +
      v.transformed_position.z * v.transformed_position.z) < 0.001) :
    get_planet_color f v t pt = ⟨0, 0, 0⟩ := by
  rcases hpt with rfl | rfl | rfl | rfl | rfl | rfl | rfl <;>
    simp only [get_planet_color, sun_shader, earth_shader, gas_giant_shader, moon_shader,
      neptune_shader, uranus_shader, venus_shader] <;>
    rw [if_pos hlen]

/-- C5 witness: the sun shader at the origin surface position returns black. -/
theorem planet_shader_guard_witness :
    get_planet_color mkRF (mkRV ⟨0, 0, 0⟩) 0 0 = ⟨0, 0, 0⟩ :=
  planet_shader_guard mkRF (mkRV ⟨0, 0, 0⟩) 0 0 (Or.inl rfl)
    (by norm_num [mkRV, Real.sqrt_zero])

end Render
